import Mathlib

/-!
Shallow embedding of the BadgerDB-style buffer pool manager from
`src/buffer.cpp` (namespace `badgerdb`, class `BufMgr`), together with the
frame-descriptor helpers and hash directory whose contract is given by the
specification (the header `buffer.h` and the hash table implementation are
not part of the provided sources).

Files are identified by stable handle identity; we model a `File*` as a
natural number, and the nullable pointer stored in a frame descriptor as an
`Option File` (with `none` playing the role of the null pointer).  Calls
into the file layer are recorded as an event log, and the success or
failure of `File::readPage` is driven by an explicit `disk` oracle mapping
a (file, page number) pair to the page it holds, if any.
-/

namespace BadgerDB

abbrev File := Nat
abbrev PageId := Nat
abbrev FrameId := Nat

/-- A page: an opaque payload plus the embedded page number the file layer
assigned on allocation (`Page::page_number()` in the sources). -/
structure Page where
  page_number : PageId
  data : Nat
deriving DecidableEq

/-- Calls made into the file layer, in program order.  `write` carries the
(possibly null) `File*` stored in the frame descriptor, exactly the pointer
the source passes to `writePage`, and the page number embedded in the
written payload. -/
inductive IOEvent where
  | read : File → PageId → IOEvent
  | write : Option File → PageId → IOEvent
  | alloc : File → PageId → IOEvent
  | delete : File → PageId → IOEvent
deriving DecidableEq

/-- The error kinds thrown by `buffer.cpp` (`BufferExceededException`,
`PageNotPinnedException`, `PagePinnedException`, `BadBufferException`,
`HashNotFoundException`) plus the I/O errors propagated from the file
layer. -/
inductive BufError where
  | BufferExceeded
  | PageNotPinned
  | PagePinned
  | BadBuffer
  | HashNotFound
  | IOError
deriving DecidableEq

/-- Frame descriptor (`BufDesc`), as described in §3 of the specification. -/
structure BufDesc where
  frameNo : FrameId
  valid : Bool
  file : Option File
  pageNo : PageId
  pinCnt : Nat
  dirty : Bool
  refbit : Bool
deriving DecidableEq

/-- Modelled from the spec: `BufDesc::Set(file, pageNo)` lives in the
missing header `buffer.h`; §4.3 gives its transition as
`valid=true, file=file, pageNo=pageNo, pinCnt=1, refbit=1, dirty=false`. -/
def BufDesc.Set (d : BufDesc) (f : Option File) (p : PageId) : BufDesc :=
  { d with valid := true, file := f, pageNo := p, pinCnt := 1,
           refbit := true, dirty := false }

/-- Modelled from the spec: `BufDesc::Clear()` lives in the missing header
`buffer.h`; §4.3 gives its transition as
`valid=false, file=nil, pinCnt=0, refbit=0, dirty=false` with `pageNo`
possibly left stale. -/
def BufDesc.Clear (d : BufDesc) : BufDesc :=
  { d with valid := false, file := none, pinCnt := 0,
           refbit := false, dirty := false }

/-- An in-place write to just the dirty bit of a descriptor
(`bufDescTable[i].dirty = ...` in the source). -/
def BufDesc.setDirty (d : BufDesc) (b : Bool) : BufDesc :=
  { d with dirty := b }

/-- Modelled from the spec: the initial contents of a descriptor created by
the `BufMgr` constructor; the constructor in `buffer.cpp` sets `frameNo`
and `valid=false`, and the remaining fields start in the Empty state of the
§4.3 state table (all counters and bits zero, null file pointer). -/
def initDesc (i : Nat) : BufDesc :=
  { frameNo := i, valid := false, file := none, pageNo := 0,
    pinCnt := 0, dirty := false, refbit := false }

/-- Directory keys: the `File*` (nullable, hence `Option`) paired with the
page number, as stored by `BufHashTbl`. -/
abbrev HashKey := Option File × PageId

abbrev HashTbl := List (HashKey × FrameId)

/-- Modelled from the spec: `BufHashTbl::lookup` (§4.1); pure lookup that
reports a miss distinctly from a hit. -/
def hashLookup (t : HashTbl) (f : Option File) (p : PageId) : Option FrameId :=
  (t.find? (fun e => decide (e.1 = (f, p)))).map (fun e => e.2)

/-- Modelled from the spec: `BufHashTbl::insert` (§4.1); precondition is
that no entry for the key exists yet. -/
def hashInsert (t : HashTbl) (f : Option File) (p : PageId) (fr : FrameId) : HashTbl :=
  ((f, p), fr) :: t

/-- Modelled from the spec: `BufHashTbl::remove` (§4.1); fails with
`HashNotFound` when no entry for the key exists. -/
def hashRemove (t : HashTbl) (f : Option File) (p : PageId) : Except BufError HashTbl :=
  match hashLookup t f p with
  | none => .error .HashNotFound
  | some _ => .ok (t.filter (fun e => !(decide (e.1 = (f, p)))))

/-- The mutable state of a `BufMgr`: frame descriptor table, page pool,
hash directory and the CLOCK hand. -/
structure BufState where
  numBufs : Nat
  bufDescTable : List BufDesc
  bufPool : List Page
  hashTable : HashTbl
  clockHand : Nat
deriving DecidableEq

def getDesc (st : BufState) (i : Nat) : BufDesc :=
  st.bufDescTable.getD i (initDesc i)

def setDesc (st : BufState) (i : Nat) (d : BufDesc) : BufState :=
  { st with bufDescTable := st.bufDescTable.set i d }

def getPage (st : BufState) (i : Nat) : Page :=
  st.bufPool.getD i { page_number := 0, data := 0 }

def setPool (st : BufState) (i : Nat) (pg : Page) : BufState :=
  { st with bufPool := st.bufPool.set i pg }

/-- The combined effect, on the state, of evicting a victim frame `i`:
`Clear()` on its descriptor and the new directory contents `t` produced by
`hashTable->remove` (`allocBuf`'s Cold branch, `flushFile` and
`disposePage` all perform exactly this pair of mutations). -/
def clearVictim (st : BufState) (i : Nat) (t : HashTbl) : BufState :=
  { numBufs := st.numBufs
    bufDescTable := st.bufDescTable.set i (getDesc st i).Clear
    bufPool := st.bufPool
    hashTable := t
    clockHand := st.clockHand }

/-- The combined effect, on the state, of filling frame `i` with a page
for `(file, pageNo)`: store the payload, insert the directory entry and
`Set(file, pageNo)` on the descriptor (the shared tail of `readPage`'s
miss path and of `allocPage`). -/
def fillFrame (st : BufState) (i : Nat) (pg : Page) (file : File)
    (pageNo : PageId) : BufState :=
  { numBufs := st.numBufs
    bufDescTable := st.bufDescTable.set i ((getDesc st i).Set (some file) pageNo)
    bufPool := st.bufPool.set i pg
    hashTable := hashInsert st.hashTable (some file) pageNo i
    clockHand := st.clockHand }

/-- `BufMgr::BufMgr(bufs)`: descriptors numbered and invalidated, empty
hash table, clock hand at `bufs - 1`. -/
def BufMgr.mk (bufs : Nat) : BufState :=
  { numBufs := bufs
    bufDescTable := (List.range bufs).map initDesc
    bufPool := (List.range bufs).map (fun _ => { page_number := 0, data := 0 })
    hashTable := []
    clockHand := bufs - 1 }

/-- `BufMgr::advanceClock()`. -/
def advanceClock (st : BufState) : BufState :=
  { st with clockHand := (st.clockHand + 1) % st.numBufs }

/-- Result of one buffer-manager entry point: the returned value or thrown
exception, the state of the manager when control leaves it (C++ exceptions
leave all mutations performed so far in place), and the file-layer calls
made. -/
structure OpResult (α : Type) where
  res : Except BufError α
  st : BufState
  evs : List IOEvent

/-- The error component of an optional operation result (`none` only when
the modelling fuel of `allocBuf` ran out, which never happens for the fuel
bound used). -/
def opError {α : Type} : Option (OpResult α) → Option BufError
  | some ⟨.error e, _, _⟩ => some e
  | _ => none

/-- The final state of an optional operation result, with a default for the
fuel-exhaustion artifact. -/
def resultState {α : Type} (dflt : BufState) : Option (OpResult α) → BufState
  | some r => r.st
  | none => dflt

/-- The body of `BufMgr::allocBuf`'s `while(1)` loop, with explicit fuel
(the C++ loop is unbounded; `allocBuf` below supplies fuel that is never
exhausted).  `current` is the local pinned-frame counter of the source.
Each iteration advances the clock hand; a valid pinned frame bumps
`current` and throws `BufferExceeded` once it reaches `numBufs`; a valid
unpinned referenced frame has its refbit cleared; a valid unpinned
unreferenced frame is written back if dirty, removed from the directory and
`Clear`ed; an invalid frame is `Set` with its own stale file and page
number.  The selected frame index is returned. -/
def allocBufLoop : Nat → BufState → Nat → Option (OpResult FrameId)
  | 0, _, _ => none
  | fuel + 1, st, current =>
    let st1 := advanceClock st
    let h := st1.clockHand
    let d := getDesc st1 h
    if d.valid then
      if d.pinCnt > 0 then
        if current + 1 = st1.numBufs then
          some ⟨.error .BufferExceeded, st1, []⟩
        else
          allocBufLoop fuel st1 (current + 1)
      else if d.refbit then
        allocBufLoop fuel (setDesc st1 h { d with refbit := false }) current
      else
        let evs := if d.dirty then [IOEvent.write d.file (getPage st1 h).page_number] else []
        match hashRemove st1.hashTable d.file d.pageNo with
        | .error e => some ⟨.error e, st1, evs⟩
        | .ok t => some ⟨.ok h, clearVictim st1 h t, evs⟩
    else
      some ⟨.ok h, setDesc st1 h (d.Set d.file d.pageNo), []⟩

/-- `BufMgr::allocBuf(frame)`.  The fuel `2 * numBufs + 2` dominates the
real loop: at most `numBufs - 1` pinned skips and `numBufs` refbit clears
can occur before an exit. -/
def allocBuf (st : BufState) : Option (OpResult FrameId) :=
  allocBufLoop (2 * st.numBufs + 2) st 0

/-- `BufMgr::readPage(file, pageNo, page)`.  On a hit the refbit is set and
the pin count incremented.  On a miss a victim is obtained from `allocBuf`
and the source asks the file layer for page `frameNum` — the frame index,
not `pageNo` (`bufPool[frameNum] = file->readPage(frameNum)`), recorded in
the event log; the fetched page is stored, the directory entry inserted and
the descriptor `Set(file, pageNo)`.  `disk` models which pages
`File::readPage` can return; a miss of `disk` is the propagated I/O
error. -/
def readPage (disk : File → PageId → Option Page) (st : BufState)
    (file : File) (pageNo : PageId) : Option (OpResult FrameId) :=
  match hashLookup st.hashTable (some file) pageNo with
  | some frameNum =>
    let d := getDesc st frameNum
    some ⟨.ok frameNum, setDesc st frameNum { d with refbit := true, pinCnt := d.pinCnt + 1 }, []⟩
  | none =>
    match allocBuf st with
    | none => none
    | some r =>
      match r.res with
      | .error e => some ⟨.error e, r.st, r.evs⟩
      | .ok frameNum =>
        match disk file frameNum with
        | none => some ⟨.error .IOError, r.st, r.evs ++ [IOEvent.read file frameNum]⟩
        | some pg =>
          some ⟨.ok frameNum, fillFrame r.st frameNum pg file pageNo,
                r.evs ++ [IOEvent.read file frameNum]⟩

/-- `BufMgr::unPinPage(file, pageNo, dirty)`: a directory miss is a silent
no-op; a pinned count of zero throws `PageNotPinned`; otherwise the dirty
bit is set when requested (never cleared) and the pin count decremented. -/
def unPinPage (st : BufState) (file : File) (pageNo : PageId) (dirty : Bool) :
    OpResult Unit :=
  match hashLookup st.hashTable (some file) pageNo with
  | none => ⟨.ok (), st, []⟩
  | some frameNum =>
    let d := getDesc st frameNum
    if d.pinCnt = 0 then
      ⟨.error .PageNotPinned, st, []⟩
    else
      let d1 := if dirty then { d with dirty := true } else d
      let d2 := if d1.pinCnt > 0 then { d1 with pinCnt := d1.pinCnt - 1 } else d1
      ⟨.ok (), setDesc st frameNum d2, []⟩

/-- The body of `BufMgr::flushFile`'s loop over all frames, keyed by the
(possibly null) `File*` being compared against each descriptor's `file`
field.  Note the source order: a dirty frame is written back and its dirty
bit cleared BEFORE the pinned and validity checks that may throw. -/
def flushLoop (fo : Option File) : List Nat → BufState → List IOEvent → OpResult Unit
  | [], st, evs => ⟨.ok (), st, evs⟩
  | i :: rest, st, evs =>
    let d := getDesc st i
    if d.file = fo then
      let st1 := if d.dirty then setDesc st i (d.setDirty false) else st
      let evs1 := if d.dirty then evs ++ [IOEvent.write d.file (getPage st i).page_number] else evs
      let d1 := getDesc st1 i
      if d1.pinCnt > 0 then
        ⟨.error .PagePinned, st1, evs1⟩
      else if d1.valid = false then
        ⟨.error .BadBuffer, st1, evs1⟩
      else
        match hashRemove st1.hashTable d1.file d1.pageNo with
        | .error e => ⟨.error e, st1, evs1⟩
        | .ok t => flushLoop fo rest (clearVictim st1 i t) evs1
    else
      flushLoop fo rest st evs

/-- `BufMgr::flushFile(file)` generalized over the raw pointer compared
against the descriptors (the destructor passes a frame's own `file`
field). -/
def flushFileP (st : BufState) (fo : Option File) : OpResult Unit :=
  flushLoop fo (List.range st.numBufs) st []

/-- `BufMgr::flushFile(file)` as called by clients, with a non-null
file. -/
def flushFile (st : BufState) (file : File) : OpResult Unit :=
  flushFileP st (some file)

/-- `BufMgr::allocPage(file, pageNo, page)`.  The freshly allocated page
`pg` is the value returned by `file->allocatePage()`; the source then takes
a victim from `allocBuf`, stores the page, `Set`s the descriptor and
inserts the directory entry. -/
def allocPage (st : BufState) (file : File) (pg : Page) :
    Option (OpResult (PageId × FrameId)) :=
  let pageNo := pg.page_number
  match allocBuf st with
  | none => none
  | some r =>
    match r.res with
    | .error e => some ⟨.error e, r.st, IOEvent.alloc file pageNo :: r.evs⟩
    | .ok frameNum =>
      some ⟨.ok (pageNo, frameNum), fillFrame r.st frameNum pg file pageNo,
            IOEvent.alloc file pageNo :: r.evs⟩

/-- The body of `BufMgr::disposePage`'s loop over all frames: a frame whose
`file` and `pageNo` fields match is checked for pins (throwing
`PagePinned`), then `Clear`ed and removed from the directory — in that
source order, so the `Clear` survives a `HashNotFound` from the
directory. -/
def disposeLoop (file : File) (pageNo : PageId) : List Nat → BufState → OpResult Unit
  | [], st => ⟨.ok (), st, []⟩
  | i :: rest, st =>
    let d := getDesc st i
    if d.file = some file ∧ d.pageNo = pageNo then
      if d.pinCnt > 0 then
        ⟨.error .PagePinned, st, []⟩
      else
        match hashRemove st.hashTable (some file) pageNo with
        | .error e => ⟨.error e, setDesc st i d.Clear, []⟩
        | .ok t => disposeLoop file pageNo rest (clearVictim st i t)
    else
      disposeLoop file pageNo rest st

/-- `BufMgr::disposePage(file, PageNo)`: runs the loop over all frames and,
when it did not throw, calls `file->deletePage(PageNo)` unconditionally. -/
def disposePage (st : BufState) (file : File) (pageNo : PageId) : OpResult Unit :=
  let r := disposeLoop file pageNo (List.range st.numBufs) st
  match r.res with
  | .error e => ⟨.error e, r.st, r.evs⟩
  | .ok _ => ⟨.ok (), r.st, r.evs ++ [IOEvent.delete file pageNo]⟩

/-- The body of `BufMgr::~BufMgr()`'s loop: every frame whose dirty bit is
(still) set has its owning file flushed via `flushFile`; an exception from
`flushFile` propagates out of the destructor. -/
def destructorLoop : List Nat → BufState → List IOEvent → OpResult Unit
  | [], st, evs => ⟨.ok (), st, evs⟩
  | i :: rest, st, evs =>
    if (getDesc st i).dirty then
      let r := flushFileP st (getDesc st i).file
      match r.res with
      | .error e => ⟨.error e, r.st, evs ++ r.evs⟩
      | .ok _ => destructorLoop rest r.st (evs ++ r.evs)
    else
      destructorLoop rest st evs

/-- `BufMgr::~BufMgr()` (its flushing phase; the deallocations have no
observable state). -/
def destructor (st : BufState) : OpResult Unit :=
  destructorLoop (List.range st.numBufs) st []

/-- The number of valid frames, as counted by `BufMgr::printSelf`. -/
def numValidFrames (st : BufState) : Nat :=
  ((List.range st.numBufs).filter (fun i => (getDesc st i).valid)).length

/-! ### Basic lemmas about the state accessors -/

lemma getDesc_lt_of_valid (st : BufState) (i : Nat)
    (h : (getDesc st i).valid = true) : i < st.bufDescTable.length := by
  by_contra hge
  push_neg at hge
  rw [getDesc, List.getD_eq_default _ _ hge] at h
  simp [initDesc] at h

lemma getDesc_lt_of_dirty (st : BufState) (i : Nat)
    (h : (getDesc st i).dirty = true) : i < st.bufDescTable.length := by
  by_contra hge
  push_neg at hge
  rw [getDesc, List.getD_eq_default _ _ hge] at h
  simp [initDesc] at h

lemma getDesc_lt_of_file_some (st : BufState) (i : Nat) {f : File}
    (h : (getDesc st i).file = some f) : i < st.bufDescTable.length := by
  by_contra hge
  push_neg at hge
  rw [getDesc, List.getD_eq_default _ _ hge] at h
  simp [initDesc] at h

lemma getDesc_setDesc_self (st : BufState) (i : Nat) (d : BufDesc)
    (h : i < st.bufDescTable.length) : getDesc (setDesc st i d) i = d := by
  simp [getDesc, setDesc, List.getD_eq_getElem?_getD, List.getElem?_set_self h]

lemma getDesc_setDesc_ne (st : BufState) (i j : Nat) (d : BufDesc)
    (h : i ≠ j) : getDesc (setDesc st i d) j = getDesc st j := by
  simp [getDesc, setDesc, List.getD_eq_getElem?_getD, List.getElem?_set_ne h]

lemma getDesc_advance (st : BufState) (i : Nat) :
    getDesc (advanceClock st) i = getDesc st i := rfl

lemma hashTable_setDesc (st : BufState) (i : Nat) (d : BufDesc) :
    (setDesc st i d).hashTable = st.hashTable := rfl

lemma setDirty_valid (d : BufDesc) (b : Bool) : (d.setDirty b).valid = d.valid := rfl

lemma setDirty_file (d : BufDesc) (b : Bool) : (d.setDirty b).file = d.file := rfl

lemma setDirty_pageNo (d : BufDesc) (b : Bool) : (d.setDirty b).pageNo = d.pageNo := rfl

lemma setDirty_pinCnt (d : BufDesc) (b : Bool) : (d.setDirty b).pinCnt = d.pinCnt := rfl

lemma setDesc_eq_of_length_le (st : BufState) (i : Nat) (d : BufDesc)
    (h : st.bufDescTable.length ≤ i) : setDesc st i d = st := by
  simp [setDesc, List.set_eq_of_length_le h]

lemma bool_eq_true_of_ne_false {b : Bool} (h : ¬ b = false) : b = true := by
  cases b
  · exact absurd rfl h
  · rfl

lemma bool_eq_false_of_ne_true {b : Bool} (h : ¬ b = true) : b = false := by
  cases b
  · rfl
  · exact absurd rfl h

lemma getDesc_clearVictim_self (st : BufState) (i : Nat) (t : HashTbl)
    (h : i < st.bufDescTable.length) :
    getDesc (clearVictim st i t) i = (getDesc st i).Clear := by
  simp [getDesc, clearVictim, List.getD_eq_getElem?_getD, List.getElem?_set_self h]

lemma getDesc_clearVictim_ne (st : BufState) (i j : Nat) (t : HashTbl)
    (h : i ≠ j) : getDesc (clearVictim st i t) j = getDesc st j := by
  simp [getDesc, clearVictim, List.getD_eq_getElem?_getD, List.getElem?_set_ne h]

lemma getDesc_fillFrame_self (st : BufState) (i : Nat) (pg : Page)
    (file : File) (pageNo : PageId) (h : i < st.bufDescTable.length) :
    getDesc (fillFrame st i pg file pageNo) i = (getDesc st i).Set (some file) pageNo := by
  simp [getDesc, fillFrame, List.getD_eq_getElem?_getD, List.getElem?_set_self h]

lemma getDesc_fillFrame_ne (st : BufState) (i j : Nat) (pg : Page)
    (file : File) (pageNo : PageId) (h : i ≠ j) :
    getDesc (fillFrame st i pg file pageNo) j = getDesc st j := by
  simp [getDesc, fillFrame, List.getD_eq_getElem?_getD, List.getElem?_set_ne h]

lemma getDesc_setPool (st : BufState) (i j : Nat) (pg : Page) :
    getDesc (setPool st i pg) j = getDesc st j := rfl

lemma length_setDesc (st : BufState) (i : Nat) (d : BufDesc) :
    (setDesc st i d).bufDescTable.length = st.bufDescTable.length :=
  List.length_set ..

/-- The fields of a descriptor do not change when the descriptor merely has
its reference bit cleared: the relation between a descriptor and its
possibly-weakened version after some CLOCK sweeps. -/
def RefbitWeak (d d' : BufDesc) : Prop :=
  d' = d ∨ d' = { d with refbit := false }

lemma RefbitWeak.refl (d : BufDesc) : RefbitWeak d d := Or.inl (Eq.refl d)

lemma RefbitWeak.trans {a b c : BufDesc} (h1 : RefbitWeak a b)
    (h2 : RefbitWeak b c) : RefbitWeak a c := by
  rcases h1 with h1 | h1 <;> rcases h2 with h2 | h2 <;> subst h1 <;>
    simp [RefbitWeak, h2]

lemma RefbitWeak.valid {a b : BufDesc} (h : RefbitWeak a b) : b.valid = a.valid := by
  rcases h with h | h <;> subst h <;> rfl

lemma RefbitWeak.file {a b : BufDesc} (h : RefbitWeak a b) : b.file = a.file := by
  rcases h with h | h <;> subst h <;> rfl

lemma RefbitWeak.pageNo {a b : BufDesc} (h : RefbitWeak a b) : b.pageNo = a.pageNo := by
  rcases h with h | h <;> subst h <;> rfl

lemma RefbitWeak.pinCnt {a b : BufDesc} (h : RefbitWeak a b) : b.pinCnt = a.pinCnt := by
  rcases h with h | h <;> subst h <;> rfl

lemma RefbitWeak.dirty {a b : BufDesc} (h : RefbitWeak a b) : b.dirty = a.dirty := by
  rcases h with h | h <;> subst h <;> rfl

lemma RefbitWeak.set_congr {a b : BufDesc} (h : RefbitWeak a b) (f : Option File)
    (p : PageId) : b.Set f p = a.Set f p := by
  rcases h with h | h <;> subst h <;> rfl

lemma RefbitWeak.clear_congr {a b : BufDesc} (h : RefbitWeak a b) :
    b.Clear = a.Clear := by
  rcases h with h | h <;> subst h <;> rfl

lemma RefbitWeak.eq_of_refbit_false {a b : BufDesc} (h : RefbitWeak a b)
    (hr : a.refbit = false) : b = a := by
  rcases h with h | h
  · exact h
  · subst h
    cases a
    simp_all

/-! ### Characterization of the `allocBuf` loop -/

/-- When the `allocBuf` loop throws, the directory, pool and frame count
are untouched and descriptors have at most had reference bits cleared. -/
lemma allocBufLoop_err : ∀ (fuel current : Nat) (st : BufState) (e : BufError)
    (st' : BufState) (evs : List IOEvent),
    allocBufLoop fuel st current = some ⟨.error e, st', evs⟩ →
    st'.numBufs = st.numBufs ∧ st'.bufPool = st.bufPool ∧
    st'.hashTable = st.hashTable ∧
    st'.bufDescTable.length = st.bufDescTable.length ∧
    ∀ i, RefbitWeak (getDesc st i) (getDesc st' i) := by
  intro fuel
  induction fuel with
  | zero =>
    intro current st e st' evs h
    simp [allocBufLoop] at h
  | succ n ih =>
    intro current st e st' evs h
    simp only [allocBufLoop] at h
    split at h
    · -- valid frame
      split at h
      · -- pinned
        split at h
        · -- counter exhausted: BufferExceeded thrown here
          simp only [Option.some.injEq, OpResult.mk.injEq, Except.error.injEq] at h
          obtain ⟨-, hst, -⟩ := h
          subst hst
          exact ⟨rfl, rfl, rfl, rfl, fun i => RefbitWeak.refl _⟩
        · -- recurse after skipping the pinned frame
          obtain ⟨h1, h2, h3, h4, h5⟩ := ih _ _ _ _ _ h
          exact ⟨h1, h2, h3, h4, h5⟩
      · split at h
        · -- refbit cleared, recurse
          rename_i hvalid hpin href
          have hlt : (advanceClock st).clockHand < (advanceClock st).bufDescTable.length :=
            getDesc_lt_of_valid (advanceClock st) _ hvalid
          obtain ⟨h1, h2, h3, h4, h5⟩ := ih _ _ _ _ _ h
          refine ⟨h1, h2, h3, h4.trans (List.length_set ..), fun i => ?_⟩
          refine RefbitWeak.trans ?_ (h5 i)
          by_cases hi : i = (advanceClock st).clockHand
          · subst hi
            rw [getDesc_setDesc_self _ _ _ hlt]
            exact Or.inr rfl
          · rw [getDesc_setDesc_ne _ _ _ _ (fun hc => hi hc.symm)]
            exact RefbitWeak.refl _
        · -- cold victim: only `.ok` results come out of this branch
          split at h
          · -- hashRemove failed: HashNotFound propagates with state st1
            simp only [Option.some.injEq, OpResult.mk.injEq, Except.error.injEq] at h
            obtain ⟨-, hst, -⟩ := h
            subst hst
            exact ⟨rfl, rfl, rfl, rfl, fun i => RefbitWeak.refl _⟩
          · simp at h
    · -- invalid frame: `.ok` result, contradiction
      simp at h

/-- What holds of the victim frame `v` when the `allocBuf` loop starting
from state `st0` returns successfully in state `st'` with events `evs`:
either `v` was an invalid (Empty) frame, now `Set` with its stale identity
and the directory untouched, or `v` was a Cold frame, now `Clear`ed, its
directory entry removed, and written back first when it was dirty. -/
def VictimClause (st0 : BufState) (v : Nat) (st' : BufState)
    (evs : List IOEvent) : Prop :=
  ((getDesc st0 v).valid = false ∧
     getDesc st' v = (getDesc st0 v).Set (getDesc st0 v).file (getDesc st0 v).pageNo ∧
     st'.hashTable = st0.hashTable ∧ evs = []) ∨
  ((getDesc st0 v).valid = true ∧ (getDesc st0 v).pinCnt = 0 ∧
     getDesc st' v = (getDesc st0 v).Clear ∧
     hashRemove st0.hashTable (getDesc st0 v).file (getDesc st0 v).pageNo = .ok st'.hashTable ∧
     evs = if (getDesc st0 v).dirty = true
           then [IOEvent.write (getDesc st0 v).file (getPage st0 v).page_number]
           else [])

lemma VictimClause.transfer {st2 st0 : BufState} {v : Nat} {st' : BufState}
    {evs : List IOEvent} (h : VictimClause st2 v st' evs)
    (hw : RefbitWeak (getDesc st0 v) (getDesc st2 v))
    (hht : st2.hashTable = st0.hashTable)
    (hpg : getPage st2 v = getPage st0 v) : VictimClause st0 v st' evs := by
  rcases h with ⟨h1, h2, h3, h4⟩ | ⟨h1, h2, h3, h4, h5⟩
  · left
    refine ⟨by rw [← hw.valid, h1], ?_, by rw [h3, hht], h4⟩
    rw [h2, hw.set_congr, hw.file, hw.pageNo]
  · right
    refine ⟨by rw [← hw.valid, h1], by rw [← hw.pinCnt, h2], ?_, ?_, ?_⟩
    · rw [h3, hw.clear_congr]
    · rw [hht, hw.file, hw.pageNo] at h4
      exact h4
    · rw [h5, hw.dirty, hw.file, hpg]

/-- When the `allocBuf` loop returns a victim `v`, the pool is untouched,
the clock hand rests on `v`, all other descriptors have at most had their
reference bits cleared, and the victim satisfies `VictimClause`. -/
lemma allocBufLoop_ok : ∀ (fuel current : Nat) (st : BufState) (v : FrameId)
    (st' : BufState) (evs : List IOEvent),
    allocBufLoop fuel st current = some ⟨.ok v, st', evs⟩ →
    0 < st.numBufs → st.numBufs ≤ st.bufDescTable.length →
    st'.numBufs = st.numBufs ∧ st'.bufPool = st.bufPool ∧
    st'.bufDescTable.length = st.bufDescTable.length ∧
    st'.clockHand = v ∧ v < st.numBufs ∧
    (∀ i, i ≠ v → RefbitWeak (getDesc st i) (getDesc st' i)) ∧
    VictimClause st v st' evs := by
  intro fuel
  induction fuel with
  | zero =>
    intro current st v st' evs h
    simp [allocBufLoop] at h
  | succ n ih =>
    intro current st v st' evs h hpos hle
    simp only [allocBufLoop] at h
    split at h
    · -- valid frame
      split at h
      · -- pinned
        split at h
        · -- BufferExceeded thrown: not an `.ok` result
          simp at h
        · -- recurse after skipping the pinned frame
          obtain ⟨h1, h2, h3, h4, h5, h6, h7⟩ := ih _ _ _ _ _ h hpos hle
          exact ⟨h1, h2, h3, h4, h5, h6, h7⟩
      · split at h
        · -- refbit cleared, recurse
          rename_i hvalid hpin href
          have hlt : (advanceClock st).clockHand < (advanceClock st).bufDescTable.length :=
            getDesc_lt_of_valid (advanceClock st) _ hvalid
          have hlen2 : (setDesc (advanceClock st) (advanceClock st).clockHand
              { getDesc (advanceClock st) (advanceClock st).clockHand with
                refbit := false }).bufDescTable.length = st.bufDescTable.length :=
            List.length_set ..
          obtain ⟨h1, h2, h3, h4, h5, h6, h7⟩ :=
            ih _ _ _ _ _ h hpos (hle.trans_eq hlen2.symm)
          have hw : ∀ i, RefbitWeak (getDesc st i)
              (getDesc (setDesc (advanceClock st) (advanceClock st).clockHand
                { getDesc (advanceClock st) (advanceClock st).clockHand with
                  refbit := false }) i) := by
            intro i
            by_cases hi : i = (advanceClock st).clockHand
            · subst hi
              rw [getDesc_setDesc_self _ _ _ hlt]
              exact Or.inr rfl
            · rw [getDesc_setDesc_ne _ _ _ _ (fun hc => hi hc.symm)]
              exact RefbitWeak.refl _
          refine ⟨h1, h2, h3.trans hlen2, h4, h5, ?_, ?_⟩
          · intro i hi
            exact (hw i).trans (h6 i hi)
          · exact h7.transfer (hw v) rfl rfl
        · -- cold victim selected
          rename_i hvalid hpin href
          split at h
          · -- hashRemove failed: error result, contradiction
            simp at h
          · rename_i t heq
            simp only [Option.some.injEq, OpResult.mk.injEq, Except.ok.injEq] at h
            obtain ⟨hv, hst, hevs⟩ := h
            subst hst
            subst hevs
            rw [← hv]
            have hlt : (advanceClock st).clockHand < (advanceClock st).bufDescTable.length :=
              getDesc_lt_of_valid (advanceClock st) _ hvalid
            refine ⟨rfl, rfl, List.length_set .., rfl, Nat.mod_lt _ hpos, ?_, ?_⟩
            · intro i hi
              rw [getDesc_clearVictim_ne _ _ _ _ (fun hc => hi hc.symm)]
              exact RefbitWeak.refl _
            · right
              refine ⟨hvalid, Nat.eq_zero_of_not_pos hpin, ?_, heq, rfl⟩
              rw [getDesc_clearVictim_self _ _ _ hlt]
              rfl
    · -- invalid (Empty) frame selected
      rename_i hvalid
      simp only [Option.some.injEq, OpResult.mk.injEq, Except.ok.injEq] at h
      obtain ⟨hv, hst, hevs⟩ := h
      subst hst
      subst hevs
      rw [← hv]
      have hlt : (advanceClock st).clockHand < (advanceClock st).bufDescTable.length :=
        lt_of_lt_of_le (Nat.mod_lt _ hpos) hle
      refine ⟨rfl, rfl, List.length_set .., rfl, Nat.mod_lt _ hpos, ?_, ?_⟩
      · intro i hi
        rw [getDesc_setDesc_ne _ _ _ _ (fun hc => hi hc.symm)]
        exact RefbitWeak.refl _
      · left
        refine ⟨by simpa using hvalid, ?_, rfl, rfl⟩
        rw [getDesc_setDesc_self _ _ _ hlt]
        rfl

/-! ### The directory/frame-table representation invariant -/

/-- Well-formedness of one directory entry: it points to an in-range,
valid frame whose descriptor carries exactly the entry's key (and keys
always have a non-null file pointer). -/
def entryOK (st : BufState) (e : HashKey × FrameId) : Prop :=
  e.2 < st.numBufs ∧ (getDesc st e.2).valid = true ∧
  (getDesc st e.2).file = e.1.1 ∧ (getDesc st e.2).pageNo = e.1.2 ∧ e.1.1 ≠ none

/-- The representation invariant of §3 coupling the frame table and the
directory: keys are unique, every entry points to a valid frame carrying
its key, every valid frame has its entry, and invalid frames are fully
cleared (null file, no pins, clean, reference bit off). -/
def Inv (st : BufState) : Prop :=
  0 < st.numBufs ∧
  st.bufDescTable.length = st.numBufs ∧
  (st.hashTable.map (fun e => e.1)).Nodup ∧
  (∀ e ∈ st.hashTable, entryOK st e) ∧
  (∀ i, i < st.numBufs → (getDesc st i).valid = true →
    (((getDesc st i).file, (getDesc st i).pageNo), i) ∈ st.hashTable) ∧
  (∀ i, i < st.numBufs → (getDesc st i).valid = false →
    (getDesc st i).file = none ∧ (getDesc st i).pinCnt = 0 ∧
    (getDesc st i).dirty = false ∧ (getDesc st i).refbit = false)

/-- The claim-level invariant of §8: a frame is valid exactly when the
directory has a unique entry mapping to it, and the number of valid frames
equals the directory size. -/
def ClaimInv (st : BufState) : Prop :=
  (∀ f, f < st.numBufs →
    ((getDesc st f).valid = true ↔
      ∃! e : HashKey × FrameId, e ∈ st.hashTable ∧ e.2 = f)) ∧
  numValidFrames st = st.hashTable.length

instance (st : BufState) (e : HashKey × FrameId) : Decidable (entryOK st e) := by
  unfold entryOK
  infer_instance

instance (st : BufState) : Decidable (Inv st) := by
  unfold Inv
  infer_instance

lemma entry_eq_of_key_eq {st : BufState} (hInv : Inv st) {e1 e2 : HashKey × FrameId}
    (h1 : e1 ∈ st.hashTable) (h2 : e2 ∈ st.hashTable) (hk : e1.1 = e2.1) :
    e1 = e2 :=
  List.inj_on_of_nodup_map hInv.2.2.1 h1 h2 hk

lemma entry_eq_of_frame_eq {st : BufState} (hInv : Inv st) {e1 e2 : HashKey × FrameId}
    (h1 : e1 ∈ st.hashTable) (h2 : e2 ∈ st.hashTable) (hf : e1.2 = e2.2) :
    e1 = e2 := by
  have o1 := hInv.2.2.2.1 e1 h1
  have o2 := hInv.2.2.2.1 e2 h2
  refine entry_eq_of_key_eq hInv h1 h2 (Prod.ext ?_ ?_)
  · rw [← o1.2.2.1, ← o2.2.2.1, hf]
  · rw [← o1.2.2.2.1, ← o2.2.2.2.1, hf]

lemma hashLookup_eq_none {t : HashTbl} {f : Option File} {p : PageId} :
    hashLookup t f p = none ↔ ∀ e ∈ t, e.1 ≠ (f, p) := by
  simp [hashLookup, List.find?_eq_none]

lemma hashLookup_mem {t : HashTbl} {f : Option File} {p : PageId} {v : FrameId}
    (h : hashLookup t f p = some v) : ((f, p), v) ∈ t := by
  unfold hashLookup at h
  cases hfind : t.find? (fun e => decide (e.1 = (f, p))) with
  | none => rw [hfind] at h; simp at h
  | some e =>
    rw [hfind] at h
    simp only [Option.map_some', Option.some.injEq] at h
    have hmem := List.mem_of_find?_eq_some hfind
    have hpred := List.find?_some hfind
    simp only [decide_eq_true_eq] at hpred
    have he : e = ((f, p), v) := Prod.ext hpred h
    rwa [he] at hmem

lemma hashLookup_of_mem {t : HashTbl} {f : Option File} {p : PageId} {v : FrameId}
    (h : ((f, p), v) ∈ t) : ∃ w, hashLookup t f p = some w := by
  have hsome : (t.find? (fun e => decide (e.1 = (f, p)))).isSome = true := by
    rw [List.find?_isSome]
    exact ⟨((f, p), v), h, by simp⟩
  obtain ⟨e, he⟩ := Option.isSome_iff_exists.mp hsome
  exact ⟨e.2, by simp [hashLookup, he]⟩

lemma hashLookup_filter_none {t : HashTbl} {q : HashKey × FrameId → Bool}
    {f : Option File} {p : PageId} (h : hashLookup t f p = none) :
    hashLookup (t.filter q) f p = none := by
  rw [hashLookup_eq_none] at h ⊢
  intro e he
  exact h e (List.mem_of_mem_filter he)

lemma hashRemove_ok {t t' : HashTbl} {f : Option File} {p : PageId}
    (h : hashRemove t f p = .ok t') :
    t' = t.filter (fun e => !(decide (e.1 = (f, p)))) := by
  unfold hashRemove at h
  cases hl : hashLookup t f p with
  | none => rw [hl] at h; simp at h
  | some v => rw [hl] at h; simpa using h.symm

lemma mem_hashRemove_ok {t t' : HashTbl} {f : Option File} {p : PageId}
    (h : hashRemove t f p = .ok t') (e : HashKey × FrameId) :
    e ∈ t' ↔ e ∈ t ∧ e.1 ≠ (f, p) := by
  rw [hashRemove_ok h]
  simp [List.mem_filter]

lemma hashRemove_mem_ok {t : HashTbl} {f : Option File} {p : PageId} {v : FrameId}
    (h : ((f, p), v) ∈ t) : ∃ t', hashRemove t f p = .ok t' := by
  obtain ⟨w, hw⟩ := hashLookup_of_mem h
  exact ⟨t.filter (fun e => !(decide (e.1 = (f, p)))), by rw [hashRemove, hw]⟩

/-- The representation invariant implies the §8 claim-level invariant. -/
lemma Inv.claimInv {st : BufState} (hInv : Inv st) : ClaimInv st := by
  obtain ⟨hpos, hlen, hnd, hOK, hmem, hinv⟩ := hInv
  constructor
  · intro f hf
    constructor
    · intro hvalid
      refine ⟨(((getDesc st f).file, (getDesc st f).pageNo), f),
              ⟨hmem f hf hvalid, rfl⟩, ?_⟩
      rintro e ⟨he, hef⟩
      exact entry_eq_of_frame_eq ⟨hpos, hlen, hnd, hOK, hmem, hinv⟩ he
        (hmem f hf hvalid) (by rw [hef])
    · rintro ⟨e, ⟨he, hef⟩, -⟩
      have hv := (hOK e he).2.1
      rwa [hef] at hv
  · have hndl : st.hashTable.Nodup := List.Nodup.of_map _ hnd
    have hsnd : (st.hashTable.map (fun e => e.2)).Nodup := by
      refine List.Nodup.map_on ?_ hndl
      intro x hx y hy hxy
      exact entry_eq_of_frame_eq ⟨hpos, hlen, hnd, hOK, hmem, hinv⟩ hx hy hxy
    have hfil : ((List.range st.numBufs).filter
        (fun i => (getDesc st i).valid)).Nodup :=
      List.Nodup.filter _ (List.nodup_range _)
    have h1 : ((List.range st.numBufs).filter
        (fun i => (getDesc st i).valid)).toFinset =
        (st.hashTable.map (fun e => e.2)).toFinset := by
      ext x
      simp only [List.mem_toFinset, List.mem_map, List.mem_filter, List.mem_range]
      constructor
      · rintro ⟨hx, hv⟩
        exact ⟨_, hmem x hx hv, rfl⟩
      · rintro ⟨e, he, rfl⟩
        exact ⟨(hOK e he).1, (hOK e he).2.1⟩
    have e1 : numValidFrames st = ((List.range st.numBufs).filter
        (fun i => (getDesc st i).valid)).toFinset.card :=
      (List.toFinset_card_of_nodup hfil).symm
    rw [numValidFrames] at e1
    rw [numValidFrames, e1, h1, List.toFinset_card_of_nodup hsnd, List.length_map]

/-- Replacing one descriptor by one with the same `valid`, `file` and
`pageNo` (and doing nothing at all to invalid frames) preserves the
invariant. -/
lemma Inv_update {st : BufState} (hInv : Inv st) {i : Nat} (hi : i < st.numBufs)
    {d' : BufDesc} (hvalid : d'.valid = (getDesc st i).valid)
    (hfile : d'.file = (getDesc st i).file)
    (hpage : d'.pageNo = (getDesc st i).pageNo)
    (hclean : (getDesc st i).valid = false → d' = getDesc st i) :
    Inv (setDesc st i d') := by
  obtain ⟨hpos, hlen, hnd, hOK, hmem, hinv⟩ := hInv
  have hilen : i < st.bufDescTable.length := by rw [hlen]; exact hi
  have hget : ∀ j, getDesc (setDesc st i d') j =
      if j = i then d' else getDesc st j := by
    intro j
    by_cases hj : j = i
    · subst hj; rw [if_pos rfl, getDesc_setDesc_self _ _ _ hilen]
    · rw [if_neg hj, getDesc_setDesc_ne _ _ _ _ (fun hc => hj hc.symm)]
  refine ⟨hpos, ?_, hnd, ?_, ?_, ?_⟩
  · show (st.bufDescTable.set i d').length = st.numBufs
    rw [List.length_set]; exact hlen
  · intro e he
    have hOKe := hOK e he
    by_cases hei : e.2 = i
    · refine ⟨hOKe.1, ?_, ?_, ?_, hOKe.2.2.2.2⟩
      · rw [hget e.2, if_pos hei, hvalid, ← hei]; exact hOKe.2.1
      · rw [hget e.2, if_pos hei, hfile, ← hei]; exact hOKe.2.2.1
      · rw [hget e.2, if_pos hei, hpage, ← hei]; exact hOKe.2.2.2.1
    · refine ⟨hOKe.1, ?_, ?_, ?_, hOKe.2.2.2.2⟩
      · rw [hget e.2, if_neg hei]; exact hOKe.2.1
      · rw [hget e.2, if_neg hei]; exact hOKe.2.2.1
      · rw [hget e.2, if_neg hei]; exact hOKe.2.2.2.1
  · intro j hj hvj
    rw [hget j] at hvj
    rw [hget j]
    by_cases hji : j = i
    · subst hji
      rw [if_pos rfl] at hvj
      rw [if_pos rfl, hfile, hpage]
      rw [hvalid] at hvj
      exact hmem j hj hvj
    · rw [if_neg hji] at hvj
      rw [if_neg hji]
      exact hmem j hj hvj
  · intro j hj hvj
    rw [hget j] at hvj
    rw [hget j]
    by_cases hji : j = i
    · subst hji
      rw [if_pos rfl] at hvj
      rw [if_pos rfl]
      have hv0 : (getDesc st j).valid = false := by rw [← hvalid]; exact hvj
      rw [hclean hv0]
      exact hinv j hj hv0
    · rw [if_neg hji] at hvj
      rw [if_neg hji]
      exact hinv j hj hvj

/-- A state whose descriptors have merely had reference bits cleared, with
the directory unchanged, satisfies the invariant whenever the original
state did.  (This is the shape of the state `allocBuf` leaves behind when
it throws.) -/
lemma Inv_of_weak {st st' : BufState} (hInv : Inv st)
    (hn : st'.numBufs = st.numBufs)
    (hlen : st'.bufDescTable.length = st.bufDescTable.length)
    (hht : st'.hashTable = st.hashTable)
    (hw : ∀ i, RefbitWeak (getDesc st i) (getDesc st' i)) : Inv st' := by
  obtain ⟨hpos, hlen0, hnd, hOK, hmem, hinv⟩ := hInv
  refine ⟨by rw [hn]; exact hpos, by rw [hlen, hn, hlen0], by rw [hht]; exact hnd,
          ?_, ?_, ?_⟩
  · intro e he
    rw [hht] at he
    have hOKe := hOK e he
    refine ⟨by rw [hn]; exact hOKe.1, ?_, ?_, ?_, hOKe.2.2.2.2⟩
    · rw [(hw e.2).valid]; exact hOKe.2.1
    · rw [(hw e.2).file]; exact hOKe.2.2.1
    · rw [(hw e.2).pageNo]; exact hOKe.2.2.2.1
  · intro j hj hv
    rw [hn] at hj
    rw [(hw j).valid] at hv
    rw [hht, (hw j).file, (hw j).pageNo]
    exact hmem j hj hv
  · intro j hj hv
    rw [hn] at hj
    rw [(hw j).valid] at hv
    have hold := hinv j hj hv
    rw [(hw j).eq_of_refbit_false hold.2.2.2]
    exact hold

/-- Evicting (clearing and unregistering) a valid frame preserves the
invariant. -/
lemma Inv_clearVictim {st : BufState} (hInv : Inv st) {i : Nat}
    (hi : i < st.numBufs) (hv : (getDesc st i).valid = true) {t' : HashTbl}
    (hrem : hashRemove st.hashTable (getDesc st i).file (getDesc st i).pageNo = .ok t') :
    Inv (clearVictim st i t') := by
  obtain ⟨hpos, hlen, hnd, hOK, hmem, hinv⟩ := hInv
  have hInv' : Inv st := ⟨hpos, hlen, hnd, hOK, hmem, hinv⟩
  have hilen : i < st.bufDescTable.length := by rw [hlen]; exact hi
  have hkey : (((getDesc st i).file, (getDesc st i).pageNo), i) ∈ st.hashTable :=
    hmem i hi hv
  have hget : ∀ j, getDesc (clearVictim st i t') j =
      if j = i then (getDesc st i).Clear else getDesc st j := by
    intro j
    by_cases hj : j = i
    · subst hj; rw [if_pos rfl, getDesc_clearVictim_self _ _ _ hilen]
    · rw [if_neg hj, getDesc_clearVictim_ne _ _ _ _ (fun hc => hj hc.symm)]
  have hmemt' := mem_hashRemove_ok hrem
  have hsub : t'.Sublist st.hashTable := by
    rw [hashRemove_ok hrem]; exact List.filter_sublist _
  refine ⟨hpos, ?_, (hsub.map _).nodup hnd, ?_, ?_, ?_⟩
  · show (st.bufDescTable.set i _).length = st.numBufs
    rw [List.length_set]; exact hlen
  · intro e he
    obtain ⟨hemem, hekey⟩ := (hmemt' e).mp he
    have hOKe := hOK e hemem
    have hei : e.2 ≠ i := by
      intro hei
      apply hekey
      refine Prod.ext ?_ ?_
      · rw [← hOKe.2.2.1, hei]
      · rw [← hOKe.2.2.2.1, hei]
    refine ⟨hOKe.1, ?_, ?_, ?_, hOKe.2.2.2.2⟩
    · rw [hget e.2, if_neg hei]; exact hOKe.2.1
    · rw [hget e.2, if_neg hei]; exact hOKe.2.2.1
    · rw [hget e.2, if_neg hei]; exact hOKe.2.2.2.1
  · intro j hj hvj
    rw [hget j] at hvj
    rw [hget j]
    by_cases hji : j = i
    · subst hji
      rw [if_pos rfl] at hvj
      simp [BufDesc.Clear] at hvj
    · rw [if_neg hji] at hvj
      rw [if_neg hji]
      have hmj := hmem j hj hvj
      show _ ∈ t'
      rw [hmemt']
      refine ⟨hmj, ?_⟩
      intro hkeq
      exact hji (congrArg Prod.snd (entry_eq_of_key_eq hInv' hmj hkey hkeq))
  · intro j hj hvj
    rw [hget j] at hvj
    rw [hget j]
    by_cases hji : j = i
    · subst hji
      rw [if_pos rfl]
      simp [BufDesc.Clear]
    · rw [if_neg hji] at hvj
      rw [if_neg hji]
      exact hinv j hj hvj

/-- Filling a victim frame obtained from `allocBuf` (insert a directory
entry for a fresh key and `Set` the descriptor) restores the invariant,
both for an Empty victim (directory untouched) and for an evicted Cold
victim (its old entry removed). -/
lemma Inv_fillFrame {st st1 : BufState} (hInv : Inv st)
    (hn : st1.numBufs = st.numBufs)
    (hlen1 : st1.bufDescTable.length = st.bufDescTable.length)
    {v : Nat} (hvn : v < st.numBufs)
    (hw : ∀ i, i ≠ v → RefbitWeak (getDesc st i) (getDesc st1 i))
    {file : File} {pageNo : PageId}
    (hmiss : hashLookup st.hashTable (some file) pageNo = none)
    (hcase : (st1.hashTable = st.hashTable ∧ (getDesc st v).valid = false) ∨
             ((getDesc st v).valid = true ∧
              hashRemove st.hashTable (getDesc st v).file (getDesc st v).pageNo =
                .ok st1.hashTable))
    (pg : Page) : Inv (fillFrame st1 v pg file pageNo) := by
  obtain ⟨hpos, hlen, hnd, hOK, hmem, hinv⟩ := hInv
  have hInv' : Inv st := ⟨hpos, hlen, hnd, hOK, hmem, hinv⟩
  have hvlen1 : v < st1.bufDescTable.length := by rw [hlen1, hlen]; exact hvn
  have hget : ∀ j, getDesc (fillFrame st1 v pg file pageNo) j =
      if j = v then (getDesc st1 v).Set (some file) pageNo else getDesc st1 j := by
    intro j
    by_cases hj : j = v
    · subst hj; rw [if_pos rfl, getDesc_fillFrame_self _ _ _ _ _ hvlen1]
    · rw [if_neg hj, getDesc_fillFrame_ne _ _ _ _ _ _ (fun hc => hj hc.symm)]
  have hmem1 : ∀ e, e ∈ st1.hashTable → e ∈ st.hashTable ∧ e.2 ≠ v := by
    intro e he
    rcases hcase with ⟨hht, hinvalid⟩ | ⟨hvalid, hrem⟩
    · rw [hht] at he
      refine ⟨he, ?_⟩
      intro hev
      have hve := (hOK e he).2.1
      rw [hev] at hve
      rw [hve] at hinvalid
      cases hinvalid
    · have hm := (mem_hashRemove_ok hrem e).mp he
      refine ⟨hm.1, ?_⟩
      intro hev
      apply hm.2
      have hOKe := hOK e hm.1
      refine Prod.ext ?_ ?_
      · rw [← hOKe.2.2.1, hev]
      · rw [← hOKe.2.2.2.1, hev]
  have hnew1 : ∀ e, e ∈ st1.hashTable → e.1 ≠ ((some file : Option File), pageNo) := by
    intro e he
    exact (hashLookup_eq_none.mp hmiss) e (hmem1 e he).1
  have hmemback : ∀ j, j ≠ v → j < st.numBufs → (getDesc st j).valid = true →
      (((getDesc st j).file, (getDesc st j).pageNo), j) ∈ st1.hashTable := by
    intro j hjv hj hvj
    have hmj := hmem j hj hvj
    rcases hcase with ⟨hht, -⟩ | ⟨hvalid, hrem⟩
    · rw [hht]; exact hmj
    · rw [mem_hashRemove_ok hrem]
      refine ⟨hmj, ?_⟩
      intro hkeq
      have hkv : (((getDesc st v).file, (getDesc st v).pageNo), v) ∈ st.hashTable :=
        hmem v hvn hvalid
      exact hjv (congrArg Prod.snd (entry_eq_of_key_eq hInv' hmj hkv hkeq))
  refine ⟨?_, ?_, ?_, ?_, ?_, ?_⟩
  · show 0 < st1.numBufs
    rw [hn]; exact hpos
  · show (st1.bufDescTable.set v _).length = st1.numBufs
    rw [List.length_set, hlen1, hlen, ← hn]
  · show ((((some file : Option File), pageNo), v) :: st1.hashTable).map
        (fun e => e.1) |>.Nodup
    rw [List.map_cons, List.nodup_cons]
    constructor
    · intro hmm
      obtain ⟨e, he, hke⟩ := List.mem_map.mp hmm
      exact hnew1 e he hke
    · rcases hcase with ⟨hht, -⟩ | ⟨-, hrem⟩
      · rw [hht]; exact hnd
      · rw [hashRemove_ok hrem]
        exact ((List.filter_sublist _).map _).nodup hnd
  · intro e he
    rcases List.mem_cons.mp he with rfl | he1
    · refine ⟨?_, ?_, ?_, ?_, by simp⟩
      · show v < st1.numBufs
        rw [hn]; exact hvn
      · rw [hget, if_pos rfl]; simp [BufDesc.Set]
      · rw [hget, if_pos rfl]; simp [BufDesc.Set]
      · rw [hget, if_pos rfl]; simp [BufDesc.Set]
    · obtain ⟨hes, hev⟩ := hmem1 e he1
      have hOKe := hOK e hes
      have hwk := hw e.2 hev
      refine ⟨?_, ?_, ?_, ?_, hOKe.2.2.2.2⟩
      · show e.2 < st1.numBufs
        rw [hn]; exact hOKe.1
      · rw [hget, if_neg hev, hwk.valid]; exact hOKe.2.1
      · rw [hget, if_neg hev, hwk.file]; exact hOKe.2.2.1
      · rw [hget, if_neg hev, hwk.pageNo]; exact hOKe.2.2.2.1
  · intro j hj hvj
    rw [hget j] at hvj
    rw [hget j]
    by_cases hjv : j = v
    · subst hjv
      rw [if_pos rfl]
      show _ ∈ ((((some file : Option File), pageNo), j) :: st1.hashTable)
      simp [BufDesc.Set]
    · rw [if_neg hjv] at hvj
      rw [if_neg hjv]
      have hwk := hw j hjv
      rw [hwk.valid] at hvj
      have hjn : j < st.numBufs := by
        have hj1 : j < st1.numBufs := hj
        rwa [hn] at hj1
      show _ ∈ ((((some file : Option File), pageNo), v) :: st1.hashTable)
      refine List.mem_cons_of_mem _ ?_
      rw [hwk.file, hwk.pageNo]
      exact hmemback j hjv hjn hvj
  · intro j hj hvj
    rw [hget j] at hvj
    rw [hget j]
    by_cases hjv : j = v
    · subst hjv
      rw [if_pos rfl] at hvj
      simp [BufDesc.Set] at hvj
    · rw [if_neg hjv] at hvj
      rw [if_neg hjv]
      have hwk := hw j hjv
      rw [hwk.valid] at hvj
      have hjn : j < st.numBufs := by
        have hj1 : j < st1.numBufs := hj
        rwa [hn] at hj1
      have hold := hinv j hjn hvj
      rw [hwk.eq_of_refbit_false hold.2.2.2]
      exact hold

/-! ### Invariant preservation by the public operations -/

lemma BufDesc.set_dirty_false_eq {d : BufDesc} (h : d.dirty = false) :
    { d with dirty := false } = d := by
  cases d
  simp_all

/-- `readPage` preserves the invariant on every outcome other than a
propagated I/O error. -/
lemma Inv_readPage {st : BufState} (hInv : Inv st)
    (disk : File → PageId → Option Page) (file : File) (pageNo : PageId)
    {r : OpResult FrameId} (h : readPage disk st file pageNo = some r)
    (hio : r.res ≠ .error .IOError) : Inv r.st := by
  cases hlook : hashLookup st.hashTable (some file) pageNo with
  | some v =>
    simp only [readPage, hlook] at h
    simp only [Option.some.injEq] at h
    subst h
    have hOKe := hInv.2.2.2.1 _ (hashLookup_mem hlook)
    have hval : (getDesc st v).valid = true := hOKe.2.1
    have hvn : v < st.numBufs := hOKe.1
    refine Inv_update hInv hvn rfl rfl rfl ?_
    intro hcontra
    simp [hval] at hcontra
  | none =>
    cases halloc : allocBuf st with
    | none =>
      simp only [readPage, hlook, halloc] at h
      cases h
    | some ra =>
      obtain ⟨res1, st1, evs1⟩ := ra
      cases res1 with
      | error e =>
        simp only [readPage, hlook, halloc] at h
        simp only [Option.some.injEq] at h
        subst h
        obtain ⟨h1, h2, h3, h4, h5⟩ := allocBufLoop_err _ _ _ _ _ _ halloc
        exact Inv_of_weak hInv h1 h4 h3 h5
      | ok v =>
        cases hdisk : disk file v with
        | none =>
          simp only [readPage, hlook, halloc, hdisk] at h
          simp only [Option.some.injEq] at h
          subst h
          exact absurd rfl hio
        | some pg =>
          simp only [readPage, hlook, halloc, hdisk] at h
          simp only [Option.some.injEq] at h
          subst h
          obtain ⟨h1, h2, h3, h4, h5, h6, h7⟩ :=
            allocBufLoop_ok _ _ _ _ _ _ halloc hInv.1 (le_of_eq hInv.2.1.symm)
          refine Inv_fillFrame hInv h1 h3 h5 h6 hlook ?_ pg
          rcases h7 with ⟨hv1, hv2, hv3, hv4⟩ | ⟨hv1, hv2, hv3, hv4, hv5⟩
          · exact Or.inl ⟨hv3, hv1⟩
          · exact Or.inr ⟨hv1, hv4⟩

/-- `unPinPage` preserves the invariant on every outcome. -/
lemma Inv_unPinPage {st : BufState} (hInv : Inv st) (file : File)
    (pageNo : PageId) (dirty : Bool) :
    Inv (unPinPage st file pageNo dirty).st := by
  cases hlook : hashLookup st.hashTable (some file) pageNo with
  | none =>
    simp only [unPinPage, hlook]
    exact hInv
  | some v =>
    have hOKe := hInv.2.2.2.1 _ (hashLookup_mem hlook)
    have hval : (getDesc st v).valid = true := hOKe.2.1
    have hvn : v < st.numBufs := hOKe.1
    simp only [unPinPage, hlook]
    split
    · exact hInv
    · refine Inv_update hInv hvn ?_ ?_ ?_ ?_
      · cases dirty <;> simp <;> split <;> rfl
      · cases dirty <;> simp <;> split <;> rfl
      · cases dirty <;> simp <;> split <;> rfl
      · intro hcontra
        simp [hval] at hcontra

/-- The `flushFile` loop preserves the invariant (over any file-pointer
argument, including the null pointer). -/
lemma Inv_flushLoop (fo : Option File) : ∀ (idx : List Nat) (st : BufState)
    (evs : List IOEvent), Inv st → (∀ i ∈ idx, i < st.numBufs) →
    Inv (flushLoop fo idx st evs).st := by
  intro idx
  induction idx with
  | nil =>
    intro st evs hInv hidx
    exact hInv
  | cons i rest ih =>
    intro st evs hInv hidx
    have hin : i < st.numBufs := hidx i (List.mem_cons_self _ _)
    have hilen : i < st.bufDescTable.length := by rw [hInv.2.1]; exact hin
    have hrest : ∀ k ∈ rest, k < st.numBufs :=
      fun k hk => hidx k (List.mem_cons_of_mem _ hk)
    simp only [flushLoop]
    by_cases hfile : (getDesc st i).file = fo
    · rw [if_pos hfile]
      by_cases hdirty : (getDesc st i).dirty = true
      · rw [if_pos hdirty, if_pos hdirty]
        have hval : (getDesc st i).valid = true := by
          by_contra hcv
          have hd0 := (hInv.2.2.2.2.2 i hin (bool_eq_false_of_ne_true hcv)).2.2.1
          rw [hd0] at hdirty
          cases hdirty
        have hInv1 : Inv (setDesc st i ((getDesc st i).setDirty false)) :=
          Inv_update hInv hin (setDirty_valid _ _) (setDirty_file _ _)
            (setDirty_pageNo _ _) (fun hc => by rw [hval] at hc; cases hc)
        have hd1 : getDesc (setDesc st i ((getDesc st i).setDirty false)) i
            = (getDesc st i).setDirty false := getDesc_setDesc_self _ _ _ hilen
        have hval1 : (getDesc (setDesc st i ((getDesc st i).setDirty false)) i).valid
            = true := by rw [hd1, setDirty_valid]; exact hval
        rw [hd1]
        simp only [setDirty_valid, setDirty_file, setDirty_pageNo,
          setDirty_pinCnt, hashTable_setDesc]
        split
        · exact hInv1
        · split
          · exact hInv1
          · split
            · exact hInv1
            · rename_i t hrem
              have hrem1 : hashRemove (setDesc st i ((getDesc st i).setDirty false)).hashTable
                  (getDesc (setDesc st i ((getDesc st i).setDirty false)) i).file
                  (getDesc (setDesc st i ((getDesc st i).setDirty false)) i).pageNo
                  = .ok t := by
                rw [hd1, setDirty_file, setDirty_pageNo, hashTable_setDesc]
                exact hrem
              exact ih _ _ (Inv_clearVictim hInv1 hin hval1 hrem1)
                (fun k hk => hrest k hk)
      · rw [if_neg hdirty, if_neg hdirty]
        split
        · exact hInv
        · split
          · exact hInv
          · split
            · exact hInv
            · rename_i hnpin hnval hscrut t hrem
              have hval : (getDesc st i).valid = true :=
                bool_eq_true_of_ne_false (fun hc => hnval hc)
              exact ih _ _ (Inv_clearVictim hInv hin hval hrem)
                (fun k hk => hrest k hk)
    · rw [if_neg hfile]
      exact ih _ _ hInv hrest

/-- `flushFile` preserves the invariant on every outcome. -/
lemma Inv_flushFile {st : BufState} (hInv : Inv st) (file : File) :
    Inv (flushFile st file).st :=
  Inv_flushLoop (some file) (List.range st.numBufs) st [] hInv
    (fun _ hi => List.mem_range.mp hi)

/-- The `disposePage` loop preserves the invariant, never performs I/O,
and fails only with `PagePinned`. -/
lemma disposeLoop_spec (file : File) (pageNo : PageId) : ∀ (idx : List Nat)
    (st : BufState), Inv st → (∀ i ∈ idx, i < st.numBufs) →
    Inv (disposeLoop file pageNo idx st).st ∧
    (disposeLoop file pageNo idx st).evs = [] ∧
    ((disposeLoop file pageNo idx st).res = .ok () ∨
     (disposeLoop file pageNo idx st).res = .error .PagePinned) := by
  intro idx
  induction idx with
  | nil =>
    intro st hInv hidx
    exact ⟨hInv, rfl, Or.inl rfl⟩
  | cons i rest ih =>
    intro st hInv hidx
    have hin : i < st.numBufs := hidx i (List.mem_cons_self _ _)
    simp only [disposeLoop]
    split
    · rename_i hmatch
      have hval : (getDesc st i).valid = true := by
        by_contra hcv
        have hcv' : (getDesc st i).valid = false := by
          cases hv : (getDesc st i).valid
          · rfl
          · exact absurd hv hcv
        have hnone := (hInv.2.2.2.2.2 i hin hcv').1
        rw [hmatch.1] at hnone
        cases hnone
      have hment : (((some file : Option File), pageNo), i) ∈ st.hashTable := by
        have hm := hInv.2.2.2.2.1 i hin hval
        rw [hmatch.1, hmatch.2] at hm
        exact hm
      split
      · exact ⟨hInv, rfl, Or.inr rfl⟩
      · obtain ⟨t0, ht0⟩ := hashRemove_mem_ok hment
        split
        · rename_i e hrem
          rw [ht0] at hrem
          cases hrem
        · rename_i t hrem
          have hrem' : hashRemove st.hashTable (getDesc st i).file
              (getDesc st i).pageNo = .ok t := by
            rw [hmatch.1, hmatch.2]
            exact hrem
          exact ih _ (Inv_clearVictim hInv hin hval hrem')
            (fun k hk => hidx k (List.mem_cons_of_mem _ hk))
    · exact ih _ hInv (fun k hk => hidx k (List.mem_cons_of_mem _ hk))

/-- `disposePage` preserves the invariant on every outcome. -/
lemma Inv_disposePage {st : BufState} (hInv : Inv st) (file : File)
    (pageNo : PageId) : Inv (disposePage st file pageNo).st := by
  have hspec := disposeLoop_spec file pageNo (List.range st.numBufs) st hInv
    (fun _ hi => List.mem_range.mp hi)
  rcases hspec.2.2 with hok | herr
  · simp only [disposePage, hok]
    exact hspec.1
  · simp only [disposePage, herr]
    exact hspec.1

/-- `allocPage` preserves the invariant on every outcome, provided the
file layer allocated a genuinely fresh page (its number is not already
resident for this file). -/
lemma Inv_allocPage {st : BufState} (hInv : Inv st) (file : File) (pg : Page)
    {r : OpResult (PageId × FrameId)} (h : allocPage st file pg = some r)
    (hfresh : hashLookup st.hashTable (some file) pg.page_number = none) :
    Inv r.st := by
  cases halloc : allocBuf st with
  | none =>
    simp only [allocPage, halloc] at h
    cases h
  | some ra =>
    obtain ⟨res1, st1, evs1⟩ := ra
    cases res1 with
    | error e =>
      simp only [allocPage, halloc] at h
      simp only [Option.some.injEq] at h
      subst h
      obtain ⟨h1, h2, h3, h4, h5⟩ := allocBufLoop_err _ _ _ _ _ _ halloc
      exact Inv_of_weak hInv h1 h4 h3 h5
    | ok v =>
      simp only [allocPage, halloc] at h
      simp only [Option.some.injEq] at h
      subst h
      obtain ⟨h1, h2, h3, h4, h5, h6, h7⟩ :=
        allocBufLoop_ok _ _ _ _ _ _ halloc hInv.1 (le_of_eq hInv.2.1.symm)
      refine Inv_fillFrame hInv h1 h3 h5 h6 hfresh ?_ pg
      rcases h7 with ⟨hv1, hv2, hv3, hv4⟩ | ⟨hv1, hv2, hv3, hv4, hv5⟩
      · exact Or.inl ⟨hv3, hv1⟩
      · exact Or.inr ⟨hv1, hv4⟩

/-! ### Persistence of the dirty bit within a residency -/

/-- The possible fates of a previously dirty frame `i` across one
operation with result `r`: it is still dirty, or it has been invalidated
(`Clear`ed by an eviction or a disposal), or its page was written back to
its file (a flush, or the write-back `allocBuf` performs before evicting a
dirty victim). -/
def DirtyPersists {α : Type} (st : BufState) (i : Nat) (r : OpResult α) : Prop :=
  (getDesc r.st i).dirty = true ∨
  (getDesc r.st i).valid = false ∨
  IOEvent.write (getDesc st i).file (getPage st i).page_number ∈ r.evs

lemma disposePage_st (st : BufState) (file : File) (pageNo : PageId) :
    (disposePage st file pageNo).st =
    (disposeLoop file pageNo (List.range st.numBufs) st).st := by
  simp only [disposePage]
  split <;> rfl

/-- Across the `disposePage` loop a frame either keeps its dirty bit or
ends up invalid (it was the disposed page's frame and got `Clear`ed). -/
lemma disposeLoop_dirty (file : File) (pageNo : PageId) : ∀ (idx : List Nat)
    (st : BufState) (i : Nat),
    ((getDesc st i).dirty = true ∨ (getDesc st i).valid = false) →
    ((getDesc (disposeLoop file pageNo idx st).st i).dirty = true ∨
     (getDesc (disposeLoop file pageNo idx st).st i).valid = false) := by
  intro idx
  induction idx with
  | nil =>
    intro st i h
    exact h
  | cons j rest ih =>
    intro st i h
    simp only [disposeLoop]
    split
    · rename_i hmatch
      have hjlen : j < st.bufDescTable.length :=
        getDesc_lt_of_file_some st j hmatch.1
      split
      · exact h
      · split
        · -- remove failed: exit in the state with frame j cleared
          by_cases hij : i = j
          · subst hij
            right
            rw [getDesc_setDesc_self _ _ _ hjlen]
            rfl
          · rw [getDesc_setDesc_ne _ _ _ _ (fun hc => hij hc.symm)]
            exact h
        · -- removed: recurse with frame j cleared
          rename_i t hrem
          refine ih _ _ ?_
          by_cases hij : i = j
          · subst hij
            right
            rw [getDesc_clearVictim_self _ _ _ hjlen]
            rfl
          · rw [getDesc_clearVictim_ne _ _ _ _ (fun hc => hij hc.symm)]
            exact h
    · exact ih _ _ h

/-- The `flushFile` loop only appends to the event log. -/
lemma flushLoop_evs_mono (fo : Option File) : ∀ (idx : List Nat)
    (st : BufState) (evs : List IOEvent) (e : IOEvent), e ∈ evs →
    e ∈ (flushLoop fo idx st evs).evs := by
  intro idx
  induction idx with
  | nil =>
    intro st evs e he
    exact he
  | cons j rest ih =>
    intro st evs e he
    simp only [flushLoop]
    by_cases hfile : (getDesc st j).file = fo
    · rw [if_pos hfile]
      by_cases hdirtyj : (getDesc st j).dirty = true
      · rw [if_pos hdirtyj, if_pos hdirtyj]
        have he1 : e ∈ evs ++
            [IOEvent.write (getDesc st j).file (getPage st j).page_number] :=
          List.mem_append_left _ he
        split
        · exact he1
        · split
          · exact he1
          · split
            · exact he1
            · exact ih _ _ _ he1
      · rw [if_neg hdirtyj, if_neg hdirtyj]
        split
        · exact he
        · split
          · exact he
          · split
            · exact he
            · exact ih _ _ _ he
    · rw [if_neg hfile]
      exact ih _ _ _ he

/-- Across the `flushFile` loop a dirty frame is either still dirty, or
invalid (flushed and `Clear`ed), or its page was written back (the loop
clears the dirty bit only immediately after the write). -/
lemma flushLoop_dirty (fo : Option File) : ∀ (idx : List Nat) (st : BufState)
    (evs : List IOEvent) (i : Nat),
    (getDesc st i).dirty = true →
    ((getDesc (flushLoop fo idx st evs).st i).dirty = true ∨
     (getDesc (flushLoop fo idx st evs).st i).valid = false ∨
     IOEvent.write (getDesc st i).file (getPage st i).page_number ∈
       (flushLoop fo idx st evs).evs) := by
  intro idx
  induction idx with
  | nil =>
    intro st evs i h
    exact Or.inl h
  | cons j rest ih =>
    intro st evs i h
    simp only [flushLoop]
    by_cases hfile : (getDesc st j).file = fo
    · rw [if_pos hfile]
      by_cases hdirtyj : (getDesc st j).dirty = true
      · rw [if_pos hdirtyj, if_pos hdirtyj]
        have hjlen : j < st.bufDescTable.length := getDesc_lt_of_dirty st j hdirtyj
        have hd1 : getDesc (setDesc st j ((getDesc st j).setDirty false)) j
            = (getDesc st j).setDirty false := getDesc_setDesc_self _ _ _ hjlen
        rw [hd1]
        simp only [setDirty_valid, setDirty_file, setDirty_pageNo,
          setDirty_pinCnt, hashTable_setDesc]
        by_cases hij : i = j
        · -- our frame is the one flushed here: its write-back is logged
          subst hij
          have hev : IOEvent.write (getDesc st i).file (getPage st i).page_number ∈
              evs ++ [IOEvent.write (getDesc st i).file (getPage st i).page_number] := by
            simp
          split
          · exact Or.inr (Or.inr hev)
          · split
            · exact Or.inr (Or.inr hev)
            · split
              · exact Or.inr (Or.inr hev)
              · exact Or.inr (Or.inr (flushLoop_evs_mono fo rest _ _ _ hev))
        · -- a different frame is flushed: ours keeps its dirty bit
          have hdst1 : (getDesc (setDesc st j ((getDesc st j).setDirty false)) i).dirty
              = true := by
            rw [getDesc_setDesc_ne _ _ _ _ (fun hc => hij hc.symm)]
            exact h
          split
          · exact Or.inl hdst1
          · split
            · exact Or.inl hdst1
            · split
              · exact Or.inl hdst1
              · rename_i t hrem
                have hdst2 : (getDesc (clearVictim
                    (setDesc st j ((getDesc st j).setDirty false)) j t) i).dirty
                    = true := by
                  rw [getDesc_clearVictim_ne _ _ _ _ (fun hc => hij hc.symm)]
                  exact hdst1
                rcases ih (clearVictim (setDesc st j ((getDesc st j).setDirty false)) j t)
                    _ i hdst2 with h1 | h2 | h3
                · exact Or.inl h1
                · exact Or.inr (Or.inl h2)
                · refine Or.inr (Or.inr ?_)
                  have hfeq : (getDesc (clearVictim
                      (setDesc st j ((getDesc st j).setDirty false)) j t) i).file
                      = (getDesc st i).file := by
                    rw [getDesc_clearVictim_ne _ _ _ _ (fun hc => hij hc.symm),
                        getDesc_setDesc_ne _ _ _ _ (fun hc => hij hc.symm)]
                  rw [hfeq] at h3
                  exact h3
      · rw [if_neg hdirtyj, if_neg hdirtyj]
        have hij : ¬ i = j := fun hc => hdirtyj (hc ▸ h)
        split
        · exact Or.inl h
        · split
          · exact Or.inl h
          · split
            · exact Or.inl h
            · rename_i t hrem
              have hdst2 : (getDesc (clearVictim st j t) i).dirty = true := by
                rw [getDesc_clearVictim_ne _ _ _ _ (fun hc => hij hc.symm)]
                exact h
              rcases ih (clearVictim st j t) _ i hdst2 with h1 | h2 | h3
              · exact Or.inl h1
              · exact Or.inr (Or.inl h2)
              · refine Or.inr (Or.inr ?_)
                have hfeq : (getDesc (clearVictim st j t) i).file
                    = (getDesc st i).file := by
                  rw [getDesc_clearVictim_ne _ _ _ _ (fun hc => hij hc.symm)]
                rw [hfeq] at h3
                exact h3
    · rw [if_neg hfile]
      exact ih _ _ _ h

/-! ### Concrete states and result accessors used by the claim theorems -/

deriving instance DecidableEq for Except

deriving instance DecidableEq for OpResult

/-- The thrown error of an operation result, if any. -/
def resErr {α : Type} (r : OpResult α) : Option BufError :=
  match r.res with
  | .error e => some e
  | .ok _ => none

/-- The victim frame returned by an optional `allocBuf`-style result. -/
def resVictim : Option (OpResult FrameId) → Option FrameId
  | some ⟨.ok v, _, _⟩ => some v
  | _ => none

/-- A file layer on which every `readPage` fails with an I/O error. -/
def diskNone : File → PageId → Option Page := fun _ _ => none

/-- A file layer holding exactly page 5 of file 1. -/
def disk15 : File → PageId → Option Page :=
  fun f p => if f = 1 ∧ p = 5 then some { page_number := 5, data := 42 } else none

/-- A one-frame pool whose only frame holds page 7 of file 1, pinned twice
and dirty. -/
def stC2 : BufState :=
  { numBufs := 1
    bufDescTable := [{ frameNo := 0, valid := true, file := some 1, pageNo := 7,
                       pinCnt := 2, dirty := true, refbit := true }]
    bufPool := [{ page_number := 7, data := 99 }]
    hashTable := [((some 1, 7), 0)]
    clockHand := 0 }

/-- A two-frame pool: frame 0 pinned (Hot), frame 1 unpinned with its
reference bit set (Warm); the clock hand rests on frame 1. -/
def stC3 : BufState :=
  { numBufs := 2
    bufDescTable := [{ frameNo := 0, valid := true, file := some 1, pageNo := 10,
                       pinCnt := 1, dirty := false, refbit := false },
                     { frameNo := 1, valid := true, file := some 1, pageNo := 11,
                       pinCnt := 0, dirty := false, refbit := true }]
    bufPool := [{ page_number := 10, data := 0 }, { page_number := 11, data := 0 }]
    hashTable := [((some 1, 10), 0), ((some 1, 11), 1)]
    clockHand := 1 }

/-- A two-frame pool of file 1: frame 0 dirty and pinned, frame 1 dirty
and unpinned. -/
def stC6 : BufState :=
  { numBufs := 2
    bufDescTable := [{ frameNo := 0, valid := true, file := some 1, pageNo := 3,
                       pinCnt := 1, dirty := true, refbit := false },
                     { frameNo := 1, valid := true, file := some 1, pageNo := 4,
                       pinCnt := 0, dirty := true, refbit := false }]
    bufPool := [{ page_number := 3, data := 0 }, { page_number := 4, data := 0 }]
    hashTable := [((some 1, 3), 0), ((some 1, 4), 1)]
    clockHand := 0 }

/-- The state `allocBuf` produces from a fresh two-frame pool: frame 0 is
selected Empty and `Set` with its stale (null) file and stale page number
0. -/
def stW5 : BufState :=
  { numBufs := 2
    bufDescTable := [{ frameNo := 0, valid := true, file := none, pageNo := 0,
                       pinCnt := 1, dirty := false, refbit := true },
                     { frameNo := 1, valid := false, file := none, pageNo := 0,
                       pinCnt := 0, dirty := false, refbit := false }]
    bufPool := [{ page_number := 0, data := 0 }, { page_number := 0, data := 0 }]
    hashTable := []
    clockHand := 0 }

/-- A two-frame pool with page 6 of file 2 resident in frame 1, pinned
once, clean, with the reference bit set. -/
def stC9 : BufState :=
  { numBufs := 2
    bufDescTable := [{ frameNo := 0, valid := false, file := none, pageNo := 0,
                       pinCnt := 0, dirty := false, refbit := false },
                     { frameNo := 1, valid := true, file := some 2, pageNo := 6,
                       pinCnt := 1, dirty := true, refbit := true }]
    bufPool := [{ page_number := 0, data := 0 }, { page_number := 6, data := 7 }]
    hashTable := [((some 2, 6), 1)]
    clockHand := 0 }

/-- The state a `readPage` hit of page 6 of file 2 produces from `stC9`:
frame 1 re-referenced and pinned a second time. -/
def stC9hit : BufState :=
  { numBufs := 2
    bufDescTable := [{ frameNo := 0, valid := false, file := none, pageNo := 0,
                       pinCnt := 0, dirty := false, refbit := false },
                     { frameNo := 1, valid := true, file := some 2, pageNo := 6,
                       pinCnt := 2, dirty := true, refbit := true }]
    bufPool := [{ page_number := 0, data := 0 }, { page_number := 6, data := 7 }]
    hashTable := [((some 2, 6), 1)]
    clockHand := 0 }

/-! ### The claim theorems -/

/-- C1: the claim states that a `readPage` miss loads `file.readPage(pageNo)`
for every file and page number.  The source instead calls
`file->readPage(frameNum)` with the victim frame index: on a fresh
one-frame pool, `readPage(file 1, pageNo 5)` asks the file layer for page 0
(the frame number), not page 5, so the only read event is `read 1 0` and
the lookup of the existing page 5 fails with an I/O error. -/
theorem C1_readPage_requests_frame_number :
    (readPage disk15 (BufMgr.mk 1) 1 5).map (fun r => r.evs) = some [IOEvent.read 1 0] ∧
    ¬ (readPage disk15 (BufMgr.mk 1) 1 5).map (fun r => r.evs) = some [IOEvent.read 1 5] ∧
    opError (readPage disk15 (BufMgr.mk 1) 1 5) = some .IOError := by
  decide

/-- C2: the claim states `flushFile` never writes back a frame of the file
with `pinCnt > 0` and throws `PagePinned` without clearing its dirty bit.
The source checks the dirty bit before the pin count: on `stC2` (a legal
state: `Inv` holds; its one frame is pinned twice and dirty), `flushFile`
writes page 7 back and clears the dirty bit, and only then throws
`PagePinned`. -/
theorem C2_flushFile_writes_pinned_page :
    Inv stC2 ∧ (getDesc stC2 0).pinCnt > 0 ∧ (getDesc stC2 0).dirty = true ∧
    resErr (flushFile stC2 1) = some .PagePinned ∧
    (flushFile stC2 1).evs = [IOEvent.write (some 1) 7] ∧
    (getDesc (flushFile stC2 1).st 0).dirty = false := by
  decide

/-- C3: the claim states `allocBuf` raises `BufferExceeded` only when every
frame is pinned, a pinned frame skipped on two successive sweeps being
counted once.  On `stC3` (a legal state: `Inv` holds), frame 1 is valid
with `pinCnt = 0` (Warm), yet the source counts the single pinned frame 0
once per sweep: after clearing frame 1's refbit it reaches frame 0 a second
time, the counter hits `numBufs`, and `BufferExceeded` is thrown. -/
theorem C3_allocBuf_miscounts_pinned_skips :
    Inv stC3 ∧ (getDesc stC3 1).valid = true ∧ (getDesc stC3 1).pinCnt = 0 ∧
    opError (allocBuf stC3) = some .BufferExceeded := by
  decide

/-- C6: the claim states the destructor writes back every dirty frame,
ignoring pins.  The source destructor delegates to `flushFile`, which
throws `PagePinned` on the pinned dirty frame 0 (after writing it), so the
destructor aborts and the dirty unpinned frame 1 is never written: its
page 4 is lost.  `stC6` is a legal state (`Inv` holds). -/
theorem C6_destructor_loses_dirty_page :
    Inv stC6 ∧ (getDesc stC6 1).dirty = true ∧ (getDesc stC6 1).pinCnt = 0 ∧
    resErr (destructor stC6) = some .PagePinned ∧
    (destructor stC6).evs = [IOEvent.write (some 1) 3] ∧
    (getDesc (destructor stC6).st 1).dirty = true := by
  decide

/-- C4 (counterexample): the claim asserts the valid-frames/directory
invariant after every public operation, including failures.  On a fresh
one-frame pool, `readPage` of a non-existent page propagates an I/O error
but leaves the victim frame `Set` (valid) by `allocBuf`'s Empty branch with
no directory entry: one valid frame against an empty directory. -/
theorem C4_counterexample :
    opError (readPage diskNone (BufMgr.mk 1) 2 9) = some .IOError ∧
    ¬ ClaimInv (resultState (BufMgr.mk 1) (readPage diskNone (BufMgr.mk 1) 2 9)) := by
  refine ⟨by decide, ?_⟩
  intro hc
  exact absurd hc.2 (by decide)

/-- C4 (amended): for every state satisfying the representation invariant,
the claimed §8 invariant (valid ⇔ unique directory entry; valid-frame count
equals directory size) holds again after every outcome of every public
operation, except that a `readPage` which fails by propagating an I/O error
may leave it broken; `allocPage` assumes the file layer allocated a fresh
page number. -/
theorem C4_invariant_preserved (st : BufState) (hInv : Inv st) :
    (∀ (disk : File → PageId → Option Page) (file : File) (pageNo : PageId)
       (r : OpResult FrameId), readPage disk st file pageNo = some r →
       r.res ≠ .error .IOError → ClaimInv r.st) ∧
    (∀ (file : File) (pageNo : PageId) (d : Bool),
       ClaimInv (unPinPage st file pageNo d).st) ∧
    (∀ (file : File) (pg : Page) (r : OpResult (PageId × FrameId)),
       hashLookup st.hashTable (some file) pg.page_number = none →
       allocPage st file pg = some r → ClaimInv r.st) ∧
    (∀ (file : File) (pageNo : PageId), ClaimInv (disposePage st file pageNo).st) ∧
    (∀ (file : File), ClaimInv (flushFile st file).st) := by
  refine ⟨?_, ?_, ?_, ?_, ?_⟩
  · intro disk file pageNo r h hio
    exact (Inv_readPage hInv disk file pageNo h hio).claimInv
  · intro file pageNo d
    exact (Inv_unPinPage hInv file pageNo d).claimInv
  · intro file pg r hfresh h
    exact (Inv_allocPage hInv file pg h hfresh).claimInv
  · intro file pageNo
    exact (Inv_disposePage hInv file pageNo).claimInv
  · intro file
    exact (Inv_flushFile hInv file).claimInv

theorem C4_invariant_preserved_witness :
    Inv (BufMgr.mk 2) ∧ ClaimInv (unPinPage (BufMgr.mk 2) 1 0 false).st :=
  ⟨by decide, (C4_invariant_preserved (BufMgr.mk 2) (by decide)).2.1 1 0 false⟩

/-- C5 (counterexample): the claim asserts that after an I/O error on a
`readPage` miss the victim frame is left invalid.  On a fresh one-frame
pool the victim returned by `allocBuf` is frame 0, the read of the absent
page fails — and frame 0 is left valid (with `pinCnt = 1`), because
`allocBuf`'s Empty branch already ran `Set` on it. -/
theorem C5_counterexample :
    resVictim (allocBuf (BufMgr.mk 1)) = some 0 ∧
    opError (readPage diskNone (BufMgr.mk 1) 1 5) = some .IOError ∧
    (getDesc (resultState (BufMgr.mk 1) (readPage diskNone (BufMgr.mk 1) 1 5)) 0).valid
      = true := by
  decide

/-- C5 (amended): when `file.readPage` fails during a `readPage` miss the
error propagates, the operation returns in exactly the state `allocBuf`
left behind, and no directory entry for `(file, pageNo)` exists; the
victim frame is left invalid when `allocBuf` evicted a Cold (valid)
victim, but when `allocBuf` selected an Empty frame the frame has already
been `Set` and remains valid with `pinCnt = 1` and its stale file and page
number. -/
theorem C5_amended_io_error (st : BufState) (disk : File → PageId → Option Page)
    (file : File) (pageNo : PageId) (v : FrameId) (st1 : BufState)
    (evs : List IOEvent)
    (hmiss : hashLookup st.hashTable (some file) pageNo = none)
    (halloc : allocBuf st = some ⟨.ok v, st1, evs⟩)
    (hio : disk file v = none)
    (hpos : 0 < st.numBufs) (hle : st.numBufs ≤ st.bufDescTable.length) :
    readPage disk st file pageNo =
      some ⟨.error .IOError, st1, evs ++ [IOEvent.read file v]⟩ ∧
    hashLookup st1.hashTable (some file) pageNo = none ∧
    ((getDesc st v).valid = true → (getDesc st1 v).valid = false) ∧
    ((getDesc st v).valid = false →
      (getDesc st1 v).valid = true ∧ (getDesc st1 v).pinCnt = 1 ∧
      (getDesc st1 v).file = (getDesc st v).file ∧
      (getDesc st1 v).pageNo = (getDesc st v).pageNo) := by
  obtain ⟨h1, h2, h3, h4, h5, h6, h7⟩ := allocBufLoop_ok _ _ _ _ _ _ halloc hpos hle
  refine ⟨?_, ?_, ?_, ?_⟩
  · simp only [readPage, hmiss, halloc, hio]
  · rcases h7 with ⟨hv1, hv2, hv3, hv4⟩ | ⟨hv1, hv2, hv3, hv4, hv5⟩
    · rw [hv3]
      exact hmiss
    · rw [hashRemove_ok hv4]
      exact hashLookup_filter_none hmiss
  · intro hv
    rcases h7 with ⟨hv1, hv2, hv3, hv4⟩ | ⟨hv1, hv2, hv3, hv4, hv5⟩
    · rw [hv] at hv1
      cases hv1
    · rw [hv3]
      rfl
  · intro hv
    rcases h7 with ⟨hv1, hv2, hv3, hv4⟩ | ⟨hv1, hv2, hv3, hv4, hv5⟩
    · rw [hv2]
      simp [BufDesc.Set]
    · rw [hv] at hv1
      cases hv1

theorem C5_amended_io_error_witness :
    readPage diskNone (BufMgr.mk 2) 3 4 =
      some ⟨.error .IOError, stW5, [IOEvent.read 3 0]⟩ ∧
    hashLookup stW5.hashTable (some 3) 4 = none ∧
    ((getDesc (BufMgr.mk 2) 0).valid = true → (getDesc stW5 0).valid = false) ∧
    ((getDesc (BufMgr.mk 2) 0).valid = false →
      (getDesc stW5 0).valid = true ∧ (getDesc stW5 0).pinCnt = 1 ∧
      (getDesc stW5 0).file = (getDesc (BufMgr.mk 2) 0).file ∧
      (getDesc stW5 0).pageNo = (getDesc (BufMgr.mk 2) 0).pageNo) := by
  have h := C5_amended_io_error (BufMgr.mk 2) diskNone 3 4 0 stW5 []
    (by decide) (by decide) (by decide) (by decide) (by decide)
  exact h

/-- C7: once a frame's dirty bit has been set (e.g. by
`unpinPage(..., true)`), it persists for the rest of the page's residency:
every public operation either leaves the frame dirty, or ends the
residency by invalidating the frame (disposal, or a failed directory
remove), or writes the frame's page back to its file (a flush, or the
write-back performed before evicting a dirty victim).  In particular no
`unPinPage` call — with any dirty argument, including `false` — ever
clears the dirty bit of any frame. -/
theorem C7_dirty_persists (st : BufState) (hInv : Inv st) (i : Nat)
    (hdirty : (getDesc st i).dirty = true) :
    (∀ (file : File) (pageNo : PageId) (dd : Bool),
       (getDesc (unPinPage st file pageNo dd).st i).dirty = true) ∧
    (∀ (disk : File → PageId → Option Page) (file : File) (pageNo : PageId)
       (r : OpResult FrameId), readPage disk st file pageNo = some r →
       DirtyPersists st i r) ∧
    (∀ (file : File) (pg : Page) (r : OpResult (PageId × FrameId)),
       allocPage st file pg = some r → DirtyPersists st i r) ∧
    (∀ (file : File) (pageNo : PageId),
       DirtyPersists st i (disposePage st file pageNo)) ∧
    (∀ (file : File), DirtyPersists st i (flushFile st file)) := by
  have hilen : i < st.bufDescTable.length := getDesc_lt_of_dirty st i hdirty
  have hin : i < st.numBufs := by rw [← hInv.2.1]; exact hilen
  have hvalid : (getDesc st i).valid = true := by
    by_contra hcv
    have hd0 := (hInv.2.2.2.2.2 i hin (bool_eq_false_of_ne_true hcv)).2.2.1
    rw [hd0] at hdirty
    cases hdirty
  refine ⟨?_, ?_, ?_, ?_, ?_⟩
  · -- unPinPage never clears any dirty bit
    intro file pageNo dd
    cases hlook : hashLookup st.hashTable (some file) pageNo with
    | none =>
      simp only [unPinPage, hlook]
      exact hdirty
    | some v =>
      simp only [unPinPage, hlook]
      split
      · exact hdirty
      · by_cases hiv : i = v
        · subst hiv
          rw [getDesc_setDesc_self _ _ _ hilen]
          cases dd <;> simp <;> split <;> simp [hdirty]
        · rw [getDesc_setDesc_ne _ _ _ _ (fun hc => hiv hc.symm)]
          exact hdirty
  · -- readPage
    intro disk file pageNo r h
    cases hlook : hashLookup st.hashTable (some file) pageNo with
    | some v =>
      simp only [readPage, hlook] at h
      simp only [Option.some.injEq] at h
      subst h
      refine Or.inl ?_
      by_cases hiv : i = v
      · subst hiv
        show (getDesc (setDesc st i _) i).dirty = true
        rw [getDesc_setDesc_self _ _ _ hilen]
        exact hdirty
      · show (getDesc (setDesc st v _) i).dirty = true
        rw [getDesc_setDesc_ne _ _ _ _ (fun hc => hiv hc.symm)]
        exact hdirty
    | none =>
      cases halloc : allocBuf st with
      | none =>
        simp only [readPage, hlook, halloc] at h
        cases h
      | some ra =>
        obtain ⟨res1, st1, evs1⟩ := ra
        cases res1 with
        | error e =>
          simp only [readPage, hlook, halloc] at h
          simp only [Option.some.injEq] at h
          subst h
          obtain ⟨h1, h2, h3, h4, h5⟩ := allocBufLoop_err _ _ _ _ _ _ halloc
          refine Or.inl ?_
          show (getDesc st1 i).dirty = true
          rw [(h5 i).dirty]
          exact hdirty
        | ok v =>
          obtain ⟨h1, h2, h3, h4, h5, h6, h7⟩ :=
            allocBufLoop_ok _ _ _ _ _ _ halloc hInv.1 (le_of_eq hInv.2.1.symm)
          by_cases hiv : i = v
          · -- our dirty frame is the victim: Cold eviction, write-back logged
            subst hiv
            rcases h7 with ⟨hv1, hv2, hv3, hv4⟩ | ⟨hv1, hv2, hv3, hv4, hv5⟩
            · rw [hvalid] at hv1
              cases hv1
            · rw [hdirty] at hv5
              simp only [if_pos] at hv5
              cases hdisk : disk file i with
              | none =>
                simp only [readPage, hlook, halloc, hdisk] at h
                simp only [Option.some.injEq] at h
                subst h
                refine Or.inr (Or.inr ?_)
                show _ ∈ evs1 ++ [IOEvent.read file i]
                rw [hv5]
                simp
              | some pg =>
                simp only [readPage, hlook, halloc, hdisk] at h
                simp only [Option.some.injEq] at h
                subst h
                refine Or.inr (Or.inr ?_)
                show _ ∈ evs1 ++ [IOEvent.read file i]
                rw [hv5]
                simp
          · -- another frame is the victim: ours keeps its dirty bit
            cases hdisk : disk file v with
            | none =>
              simp only [readPage, hlook, halloc, hdisk] at h
              simp only [Option.some.injEq] at h
              subst h
              refine Or.inl ?_
              show (getDesc st1 i).dirty = true
              rw [(h6 i hiv).dirty]
              exact hdirty
            | some pg =>
              simp only [readPage, hlook, halloc, hdisk] at h
              simp only [Option.some.injEq] at h
              subst h
              refine Or.inl ?_
              show (getDesc (fillFrame st1 v pg file pageNo) i).dirty = true
              rw [getDesc_fillFrame_ne _ _ _ _ _ _ (fun hc => hiv hc.symm),
                  (h6 i hiv).dirty]
              exact hdirty
  · -- allocPage
    intro file pg r h
    cases halloc : allocBuf st with
    | none =>
      simp only [allocPage, halloc] at h
      cases h
    | some ra =>
      obtain ⟨res1, st1, evs1⟩ := ra
      cases res1 with
      | error e =>
        simp only [allocPage, halloc] at h
        simp only [Option.some.injEq] at h
        subst h
        obtain ⟨h1, h2, h3, h4, h5⟩ := allocBufLoop_err _ _ _ _ _ _ halloc
        refine Or.inl ?_
        show (getDesc st1 i).dirty = true
        rw [(h5 i).dirty]
        exact hdirty
      | ok v =>
        simp only [allocPage, halloc] at h
        simp only [Option.some.injEq] at h
        subst h
        obtain ⟨h1, h2, h3, h4, h5, h6, h7⟩ :=
          allocBufLoop_ok _ _ _ _ _ _ halloc hInv.1 (le_of_eq hInv.2.1.symm)
        by_cases hiv : i = v
        · subst hiv
          rcases h7 with ⟨hv1, hv2, hv3, hv4⟩ | ⟨hv1, hv2, hv3, hv4, hv5⟩
          · rw [hvalid] at hv1
            cases hv1
          · rw [hdirty] at hv5
            simp only [if_pos] at hv5
            refine Or.inr (Or.inr ?_)
            show _ ∈ IOEvent.alloc file pg.page_number :: evs1
            rw [hv5]
            simp
        · refine Or.inl ?_
          show (getDesc (fillFrame st1 v pg file pg.page_number) i).dirty = true
          rw [getDesc_fillFrame_ne _ _ _ _ _ _ (fun hc => hiv hc.symm),
              (h6 i hiv).dirty]
          exact hdirty
  · -- disposePage
    intro file pageNo
    rcases disposeLoop_dirty file pageNo (List.range st.numBufs) st i
        (Or.inl hdirty) with hd | hd
    · refine Or.inl ?_
      rw [disposePage_st]
      exact hd
    · refine Or.inr (Or.inl ?_)
      rw [disposePage_st]
      exact hd
  · -- flushFile
    intro file
    rcases flushLoop_dirty (some file) (List.range st.numBufs) st [] i hdirty
        with h1 | h2 | h3
    · exact Or.inl h1
    · exact Or.inr (Or.inl h2)
    · exact Or.inr (Or.inr h3)

theorem C7_dirty_persists_witness :
    (getDesc (unPinPage stC9 2 6 false).st 1).dirty = true ∧
    DirtyPersists stC9 1 (OpResult.mk (Except.ok 1) stC9hit []) ∧
    DirtyPersists stC9 1 (disposePage stC9 2 6) ∧
    DirtyPersists stC9 1 (flushFile stC9 2) := by
  have h := C7_dirty_persists stC9 (by decide) 1 (by decide)
  exact ⟨h.1 2 6 false, h.2.1 diskNone 2 6 ⟨Except.ok 1, stC9hit, []⟩ (by decide),
         h.2.2.2.1 2 6, h.2.2.2.2 2⟩

/-- C8: on every state satisfying the representation invariant,
`disposePage` either fails with `PagePinned` or succeeds having issued
exactly one file-layer call: `deletePage(pageNo)` — whether or not the page
was resident. -/
theorem C8_disposePage_deletes_once (st : BufState) (file : File)
    (pageNo : PageId) (hInv : Inv st) :
    (disposePage st file pageNo).res = .error .PagePinned ∨
    ((disposePage st file pageNo).res = .ok () ∧
     (disposePage st file pageNo).evs = [IOEvent.delete file pageNo]) := by
  have hspec := disposeLoop_spec file pageNo (List.range st.numBufs) st hInv
    (fun _ hi => List.mem_range.mp hi)
  rcases hspec.2.2 with hok | herr
  · right
    refine ⟨?_, ?_⟩
    · simp only [disposePage, hok]
    · simp only [disposePage, hok, hspec.2.1, List.nil_append]
  · left
    simp only [disposePage, herr]

theorem C8_disposePage_deletes_once_witness :
    (disposePage (BufMgr.mk 2) 1 5).res = .error .PagePinned ∨
    ((disposePage (BufMgr.mk 2) 1 5).res = .ok () ∧
     (disposePage (BufMgr.mk 2) 1 5).evs = [IOEvent.delete 1 5]) :=
  C8_disposePage_deletes_once (BufMgr.mk 2) 1 5 (by decide)

/-- C9: `unPinPage` touches at most the `dirty` and `pinCnt` fields of the
single frame holding `(file, pageNo)`: on a directory miss it is a silent
no-op returning the state entirely unchanged; on a hit the directory, pool,
clock hand, frame count and every other frame are unchanged, no file-layer
call is made, and the holding frame's `refbit`, `valid`, `file`, `pageNo`
and `frameNo` are unmodified. -/
theorem C9_unPinPage_frame_effect (st : BufState) (file : File)
    (pageNo : PageId) (d : Bool) :
    (hashLookup st.hashTable (some file) pageNo = none →
      unPinPage st file pageNo d = ⟨.ok (), st, []⟩) ∧
    (∀ v, hashLookup st.hashTable (some file) pageNo = some v →
      (unPinPage st file pageNo d).st.hashTable = st.hashTable ∧
      (unPinPage st file pageNo d).st.numBufs = st.numBufs ∧
      (unPinPage st file pageNo d).st.bufPool = st.bufPool ∧
      (unPinPage st file pageNo d).st.clockHand = st.clockHand ∧
      (unPinPage st file pageNo d).evs = [] ∧
      (∀ i, i ≠ v → getDesc (unPinPage st file pageNo d).st i = getDesc st i) ∧
      (getDesc (unPinPage st file pageNo d).st v).refbit = (getDesc st v).refbit ∧
      (getDesc (unPinPage st file pageNo d).st v).valid = (getDesc st v).valid ∧
      (getDesc (unPinPage st file pageNo d).st v).file = (getDesc st v).file ∧
      (getDesc (unPinPage st file pageNo d).st v).pageNo = (getDesc st v).pageNo ∧
      (getDesc (unPinPage st file pageNo d).st v).frameNo = (getDesc st v).frameNo) := by
  constructor
  · intro h
    simp only [unPinPage, h]
  · intro v hlook
    simp only [unPinPage, hlook]
    split
    · exact ⟨rfl, rfl, rfl, rfl, rfl, fun i _ => rfl, rfl, rfl, rfl, rfl, rfl⟩
    · by_cases hlen : v < st.bufDescTable.length
      · refine ⟨rfl, rfl, rfl, rfl, rfl, ?_, ?_, ?_, ?_, ?_, ?_⟩
        · intro i hi
          exact getDesc_setDesc_ne _ _ _ _ (fun hc => hi hc.symm)
        · rw [getDesc_setDesc_self _ _ _ hlen]
          cases d <;> simp <;> split <;> rfl
        · rw [getDesc_setDesc_self _ _ _ hlen]
          cases d <;> simp <;> split <;> rfl
        · rw [getDesc_setDesc_self _ _ _ hlen]
          cases d <;> simp <;> split <;> rfl
        · rw [getDesc_setDesc_self _ _ _ hlen]
          cases d <;> simp <;> split <;> rfl
        · rw [getDesc_setDesc_self _ _ _ hlen]
          cases d <;> simp <;> split <;> rfl
      · rw [setDesc_eq_of_length_le _ _ _ (Nat.le_of_not_lt hlen)]
        exact ⟨rfl, rfl, rfl, rfl, rfl, fun i _ => rfl, rfl, rfl, rfl, rfl, rfl⟩

theorem C9_unPinPage_frame_effect_witness :
    unPinPage (BufMgr.mk 3) 4 2 true = ⟨.ok (), BufMgr.mk 3, []⟩ ∧
    (getDesc (unPinPage stC9 2 6 true).st 1).refbit = (getDesc stC9 1).refbit ∧
    (∀ i, i ≠ 1 → getDesc (unPinPage stC9 2 6 true).st i = getDesc stC9 i) :=
  ⟨(C9_unPinPage_frame_effect (BufMgr.mk 3) 4 2 true).1 (by decide),
   ((C9_unPinPage_frame_effect stC9 2 6 true).2 1 (by decide)).2.2.2.2.2.2.1,
   ((C9_unPinPage_frame_effect stC9 2 6 true).2 1 (by decide)).2.2.2.2.2.1⟩

/-- C10: when `allocBuf` selects an invalid (Empty) frame it does not
return it in the Empty state: the frame has been `Set` with its own stale
(null) file pointer and stale page number, so on return it is valid with
`pinCnt = 1` and `refbit = 1`, while the directory is unchanged and
contains no entry pointing to the frame nor any entry for the frame's
stale `(file, pageNo)` key. -/
theorem C10_allocBuf_empty_victim_is_set (st : BufState) (v : FrameId)
    (st1 : BufState) (evs : List IOEvent) (hInv : Inv st)
    (halloc : allocBuf st = some ⟨.ok v, st1, evs⟩)
    (hempty : (getDesc st v).valid = false) :
    (getDesc st1 v).valid = true ∧ (getDesc st1 v).pinCnt = 1 ∧
    (getDesc st1 v).refbit = true ∧
    (getDesc st1 v).file = (getDesc st v).file ∧
    (getDesc st1 v).pageNo = (getDesc st v).pageNo ∧
    st1.hashTable = st.hashTable ∧ evs = [] ∧
    (∀ e ∈ st1.hashTable, e.2 ≠ v ∧
      e.1 ≠ ((getDesc st1 v).file, (getDesc st1 v).pageNo)) := by
  obtain ⟨h1, h2, h3, h4, h5, h6, h7⟩ :=
    allocBufLoop_ok _ _ _ _ _ _ halloc hInv.1 (le_of_eq hInv.2.1.symm)
  rcases h7 with ⟨hv1, hv2, hv3, hv4⟩ | ⟨hv1, hv2, hv3, hv4, hv5⟩
  · have hfilenone : (getDesc st v).file = none :=
      (hInv.2.2.2.2.2 v h5 hempty).1
    refine ⟨by rw [hv2]; rfl, by rw [hv2]; rfl, by rw [hv2]; rfl,
            by rw [hv2]; rfl, by rw [hv2]; rfl, hv3, hv4, ?_⟩
    intro e he
    rw [hv3] at he
    have hOKe := hInv.2.2.2.1 e he
    constructor
    · intro hev
      have hvv := hOKe.2.1
      rw [hev] at hvv
      rw [hvv] at hempty
      cases hempty
    · intro hkeq
      have h11 : e.1.1 = (getDesc st1 v).file := congrArg Prod.fst hkeq
      have h12 : (getDesc st1 v).file = none := by
        rw [hv2]
        show (getDesc st v).file = none
        exact hfilenone
      rw [h12] at h11
      exact hOKe.2.2.2.2 h11
  · rw [hempty] at hv1
    cases hv1

theorem C10_allocBuf_empty_victim_is_set_witness :
    (getDesc stW5 0).valid = true ∧ (getDesc stW5 0).pinCnt = 1 ∧
    (getDesc stW5 0).refbit = true ∧
    (getDesc stW5 0).file = (getDesc (BufMgr.mk 2) 0).file ∧
    (getDesc stW5 0).pageNo = (getDesc (BufMgr.mk 2) 0).pageNo ∧
    stW5.hashTable = (BufMgr.mk 2).hashTable ∧ ([] : List IOEvent) = [] ∧
    (∀ e ∈ stW5.hashTable, e.2 ≠ 0 ∧
      e.1 ≠ ((getDesc stW5 0).file, (getDesc stW5 0).pageNo)) :=
  C10_allocBuf_empty_victim_is_set (BufMgr.mk 2) 0 stW5 [] (by decide)
    (by decide) (by decide)

end BadgerDB
